import Mathlib

/-!
Verification development for the SpecForge pipeline (src/specforge.py).

The raw YAML document is embedded as the inductive `Raw`; Python `None` is
`Raw.null`.  Every `SpecificationProcessor.process_*` static method, the
`OutputFormatter.format_text` renderer and `SpecForge.process_spec` are
translated into Lean functions.  Python exceptions (`KeyError`, `TypeError`,
`AttributeError`) are modelled by the `Except PyErr` monad; the error-wrapping
logic of `_create_specification` / `process_spec` is reproduced in
`create_specification` / `process_spec`.
-/

namespace SpecForge

/-- A raw YAML/JSON-like value, as handed to the processors (Python objects). -/
inductive Raw where
  | str : String → Raw
  | int : Int → Raw
  | list : List Raw → Raw
  | map : List (String × Raw) → Raw
  | null : Raw

/-- Modelled Python exceptions that the pipeline can raise. -/
inductive PyErr where
  | keyError (key : String)
  | typeError (msg : String)
  | attributeError (msg : String)

/-- A single-quote character, used by Python `str(KeyError(k))` rendering. -/
def sq : String := String.singleton (Char.ofNat 39)

/-- `pyq k` is Python `str(KeyError(k))`, i.e. the key wrapped in quotes. -/
def pyq (k : String) : String := sq ++ k ++ sq

/-- First-match lookup in an insertion-ordered Python dict. -/
def lookupRaw : List (String × Raw) → String → Option Raw
  | [], _ => none
  | (k, v) :: rest, key => if k = key then some v else lookupRaw rest key

/-- Python `data.get(key, default)` on the top-level document dict. -/
def dGet (d : List (String × Raw)) (k : String) (dflt : Raw) : Raw :=
  (lookupRaw d k).getD dflt

/-- Python `r.get(k, dflt)`: only dicts have `.get`; anything else raises
`AttributeError`. -/
def Raw.getD (r : Raw) (k : String) (dflt : Raw) : Except PyErr Raw :=
  match r with
  | .map m => .ok ((lookupRaw m k).getD dflt)
  | _ => .error (.attributeError "object has no attribute get")

/-- Python `r.get(k)` (default `None`). -/
def Raw.getN (r : Raw) (k : String) : Except PyErr Raw :=
  match r with
  | .map m => .ok ((lookupRaw m k).getD .null)
  | _ => .error (.attributeError "object has no attribute get")

/-- Python subscript `r[k]` with a string key: `KeyError` on a dict missing
the key, `TypeError` on non-dict values. -/
def pySubscript (r : Raw) (k : String) : Except PyErr Raw :=
  match r with
  | .map m =>
    match lookupRaw m k with
    | some v => .ok v
    | none => .error (.keyError k)
  | _ => .error (.typeError "value is not subscriptable by string")

/-- Python `r.items()`: only dicts have `.items`. -/
def pyItems (r : Raw) : Except PyErr (List (String × Raw)) :=
  match r with
  | .map m => .ok m
  | _ => .error (.attributeError "object has no attribute items")

/-- Python iteration `for x in r`: lists yield elements, dicts yield keys,
strings yield their one-character substrings, ints and `None` raise. -/
def pyIter (r : Raw) : Except PyErr (List Raw) :=
  match r with
  | .list l => .ok l
  | .map m => .ok (m.map (fun p => Raw.str p.1))
  | .str s => .ok (s.toList.map (fun c => Raw.str (String.singleton c)))
  | _ => .error (.typeError "object is not iterable")

/-- Python truthiness of a raw value. -/
def truthy : Raw → Bool
  | .str s => s != ""
  | .int n => n != 0
  | .list l => !l.isEmpty
  | .map m => !m.isEmpty
  | .null => false

mutual

/-- Python `str(v)` / f-string interpolation of a raw value. -/
def pyStr : Raw → String
  | .str s => s
  | .int n => toString n
  | .null => "None"
  | .list l => "[" ++ pyReprList l ++ "]"
  | .map m => "\x7b" ++ pyReprPairs m ++ "\x7d"

/-- Python `repr(v)` as used for elements of containers (string escaping of
special characters is not reproduced; no raw value used in a theorem needs it). -/
def pyRepr : Raw → String
  | .str s => sq ++ s ++ sq
  | .int n => toString n
  | .null => "None"
  | .list l => "[" ++ pyReprList l ++ "]"
  | .map m => "\x7b" ++ pyReprPairs m ++ "\x7d"

def pyReprList : List Raw → String
  | [] => ""
  | [x] => pyRepr x
  | x :: y :: xs => pyRepr x ++ ", " ++ pyReprList (y :: xs)

def pyReprPairs : List (String × Raw) → String
  | [] => ""
  | [(k, v)] => pyRepr (.str k) ++ ": " ++ pyRepr v
  | (k, v) :: p :: xs => pyRepr (.str k) ++ ": " ++ pyRepr v ++ ", " ++ pyReprPairs (p :: xs)

end

/-- The elements of a joined iterable, each required to be a string; the
first non-string raises, as Python `str.join` does. -/
def asStrings : List Raw → Except PyErr (List String)
  | [] => .ok []
  | .str s :: xs => do
    let rest ← asStrings xs
    return s :: rest
  | _ :: _ => .error (.typeError "sequence item is not a string")

/-- Python string join `sep * v`: every joined element must be a string. -/
def pyJoin (sep : String) (r : Raw) : Except PyErr String :=
  match r with
  | .list l => do
    let strs ← asStrings l
    return String.intercalate sep strs
  | .str s => .ok (String.intercalate sep (s.toList.map String.singleton))
  | .map m => .ok (String.intercalate sep (m.map (fun p => p.1)))
  | _ => .error (.typeError "can only join an iterable")

/-- Python `k in r` for a string key (dict membership checks keys). -/
def pyContains (r : Raw) (k : String) : Except PyErr Bool :=
  match r with
  | .map m => .ok ((lookupRaw m k).isSome)
  | .list l => .ok (l.any (fun x => match x with | .str s => s = k | _ => false))
  | .str s => .ok ((s.splitOn k).length ≠ 1)
  | _ => .error (.typeError "argument is not a container")

/-- Left-to-right effectful map, mirroring a Python `for` loop that appends
one result per element and lets the first exception escape. -/
def mapE (f : α → Except PyErr β) : List α → Except PyErr (List β)
  | [] => .ok []
  | x :: xs => do
    let y ← f x
    let ys ← mapE f xs
    return y :: ys

/-! ### The typed specification model (the dataclasses).

Python dataclasses do not enforce their annotations at run time: each field
holds exactly the raw value the processor stored in it, so fields whose value
comes straight out of the raw document are typed `Raw` here.  Names that come
from dict keys are Lean `String`s, and the collections the processors build
themselves are real Lean lists. -/

structure HeaderFormat where
  border_line : Raw
  file_name_line : Raw
  description_line : Raw
  blank_comment : Raw
  assembly_lines : Raw
  directives : Raw

structure RegisterInfo where
  name : Raw
  purpose : Raw
  byte_regs : Raw
  constraints : Raw

structure RegisterUsage where
  general_purpose : List RegisterInfo

structure Field where
  name : Raw
  type : Raw
  description : Raw
  constraints : Raw

structure DataStructure where
  name : String
  fields : List Field
  documentation : Raw
  constraints : Raw
  examples : Raw
  complexity : Raw

structure PaddingRules where
  one_byte : Raw
  two_bytes : Raw

structure ImplementationRequirements where
  memory_operations : Raw
  encoding_requirements : Raw
  leftover_handling : Raw
  padding_rules : PaddingRules

structure Algorithm where
  name : String
  description : Raw
  implementation_requirements : ImplementationRequirements
  steps : Raw
  complexity : Raw
  edge_cases : Raw
  preconditions : Raw
  postconditions : Raw
  invariants : Raw
  examples : Raw

structure ErrorType where
  name : Raw
  description : Raw
  handling : Raw

structure ErrorHandling where
  strategies : Raw
  error_types : List ErrorType
  syscall_requirements : Raw

structure BssVariable where
  name : Raw
  size : Raw
  align : Raw
  purpose : Raw

structure SectionRequirements where
  data : Raw
  bss : List BssVariable
  text : Raw

structure Benchmark where
  name : Raw
  input_size : Raw
  expected_time : Raw
  requirements : Raw

structure Performance where
  time_complexity : Raw
  space_complexity : Raw
  constraints : Raw
  register_usage : Raw
  memory_access : Raw
  benchmarks : List Benchmark

structure TestCase where
  name : Raw
  input : Raw
  expected_output : Raw
  validation : Raw

structure Testing where
  unit_tests : List TestCase
  integration_tests : List Raw
  conformance_tests : List Raw

structure CodeStyle where
  indentation : Raw
  comments : Raw
  naming : Raw
  organization : Raw

structure Specification where
  metadata : Raw
  header_format : HeaderFormat
  register_usage : RegisterUsage
  structures : List (String × DataStructure)
  algorithms : List (String × Algorithm)
  error_handling : ErrorHandling
  section_requirements : SectionRequirements
  performance : Performance
  testing : Testing
  code_style : CodeStyle

/-! ### The normalizer: `SpecificationProcessor` -/

/-- `process_metadata`: returns `data.get('metadata', {})` unvalidated. -/
def process_metadata (d : List (String × Raw)) : Raw :=
  dGet d "metadata" (.map [])

/-- `process_header_format`. -/
def process_header_format (d : List (String × Raw)) : Except PyErr HeaderFormat := do
  let header := dGet d "header_format" (.map [])
  let border_line ← header.getD "border_line" (.str "")
  let file_name_line ← header.getD "file_name_line" (.str "")
  let description_line ← header.getD "description_line" (.str "")
  let blank_comment ← header.getD "blank_comment" (.str "")
  let assembly_lines ← header.getD "assembly_lines" (.list [])
  let directives ← header.getD "directives" (.list [])
  return ⟨border_line, file_name_line, description_line, blank_comment,
          assembly_lines, directives⟩

/-- One element of the `process_register_usage` comprehension:
`RegisterInfo(name=reg['name'], purpose=reg['purpose'],
byte_regs=reg.get('byte_regs'), constraints=reg.get('constraints', []))`. -/
def procRegister (reg : Raw) : Except PyErr RegisterInfo := do
  let name ← pySubscript reg "name"
  let purpose ← pySubscript reg "purpose"
  let byte_regs ← reg.getN "byte_regs"
  let constraints ← reg.getD "constraints" (.list [])
  return ⟨name, purpose, byte_regs, constraints⟩

/-- `process_register_usage`. -/
def process_register_usage (d : List (String × Raw)) : Except PyErr RegisterUsage := do
  let usage := dGet d "register_usage" (.map [])
  let gp ← usage.getD "general_purpose" (.list [])
  let regs ← pyIter gp
  let general_purpose ← mapE procRegister regs
  return ⟨general_purpose⟩

/-- One element of the `fields` comprehension in `process_data_structures`. -/
def procField (f : Raw) : Except PyErr Field := do
  let name ← pySubscript f "name"
  let type ← pySubscript f "type"
  let description ← f.getD "description" (.str "")
  let constraints ← f.getD "constraints" (.list [])
  return ⟨name, type, description, constraints⟩

/-- The body of the `process_data_structures` loop for one `(name, struct)`. -/
def procStructure (name : String) (struct : Raw) : Except PyErr DataStructure := do
  let fieldsRaw ← struct.getD "fields" (.list [])
  let fieldsIter ← pyIter fieldsRaw
  let fields ← mapE procField fieldsIter
  let documentation ← struct.getD "documentation" (.str "")
  let constraints ← struct.getD "constraints" (.list [])
  let examples ← struct.getD "examples" (.list [])
  let complexity ← struct.getD "complexity" (.map [])
  return ⟨name, fields, documentation, constraints, examples, complexity⟩

/-- `process_data_structures`. -/
def process_data_structures (d : List (String × Raw)) :
    Except PyErr (List (String × DataStructure)) := do
  let structsRaw := dGet d "structures" (.map [])
  let items ← pyItems structsRaw
  mapE (fun p =>
    match procStructure p.1 p.2 with
    | .ok ds => .ok (p.1, ds)
    | .error e => .error e) items

/-- The body of the `process_algorithms` loop for one `(name, algo)`. -/
def procAlgorithm (name : String) (algo : Raw) : Except PyErr Algorithm := do
  let impl_req ← algo.getD "implementation_requirements" (.map [])
  let padding_rules ← impl_req.getD "padding_rules" (.map [])
  let memory_operations ← impl_req.getD "memory_operations" (.list [])
  let encoding_requirements ← impl_req.getD "encoding_requirements" (.list [])
  let leftover_handling ← impl_req.getD "leftover_handling" (.list [])
  let one_byte ← padding_rules.getD "one_byte" (.list [])
  let two_bytes ← padding_rules.getD "two_bytes" (.list [])
  let description ← algo.getD "description" (.str "")
  let steps ← algo.getD "steps" (.map [])
  let complexity ← algo.getD "complexity" (.map [])
  let edge_cases ← algo.getD "edge_cases" (.list [])
  let preconditions ← algo.getD "preconditions" (.list [])
  let postconditions ← algo.getD "postconditions" (.list [])
  let invariants ← algo.getD "invariants" (.list [])
  let examples ← algo.getD "examples" (.list [])
  return ⟨name, description,
          ⟨memory_operations, encoding_requirements, leftover_handling,
           ⟨one_byte, two_bytes⟩⟩,
          steps, complexity, edge_cases, preconditions, postconditions,
          invariants, examples⟩

/-- `process_algorithms`. -/
def process_algorithms (d : List (String × Raw)) :
    Except PyErr (List (String × Algorithm)) := do
  let algosRaw := dGet d "algorithms" (.map [])
  let items ← pyItems algosRaw
  mapE (fun p =>
    match procAlgorithm p.1 p.2 with
    | .ok a => .ok (p.1, a)
    | .error e => .error e) items

/-- The body of the `error_types` loop in `process_error_handling`: a bare
string is expanded with default description and handling; a dict is read with
per-field defaults; every other value is silently skipped. -/
def procErrorEntry (err : Raw) : Except PyErr (Option ErrorType) :=
  match err with
  | .str s =>
    .ok (some ⟨.str s, .str ("Handle " ++ s),
               .list [.str "Detect", .str "Log", .str "Handle"]⟩)
  | .map m => do
    let name ← pySubscript (.map m) "name"
    let description := (lookupRaw m "description").getD (.str ("Handle " ++ pyStr name))
    let handling := (lookupRaw m "handling").getD
      (.list [.str "Detect", .str "Log", .str "Handle"])
    return some ⟨name, description, handling⟩
  | _ => .ok none

/-- The strategy-shape reconciliation in `process_error_handling`: a raw list
becomes the single `"general"` strategy, a raw dict is used as-is, anything
else leaves the initial empty dict. -/
def procStrategies (strategies_raw : Raw) : Raw :=
  match strategies_raw with
  | .list l => .map [("general", .list l)]
  | .map m => .map m
  | _ => .map []

/-- `process_error_handling`. -/
def process_error_handling (d : List (String × Raw)) : Except PyErr ErrorHandling := do
  let err_handling := dGet d "error_handling" (.map [])
  let error_types_raw ← err_handling.getD "error_types" (.list [])
  let entries ← pyIter error_types_raw
  let etOpts ← mapE procErrorEntry entries
  let error_types := etOpts.filterMap id
  let strategies_raw ← err_handling.getD "strategies" (.map [])
  let strategies := procStrategies strategies_raw
  let syscall_requirements ← err_handling.getD "syscall_requirements" (.list [])
  return ⟨strategies, error_types, syscall_requirements⟩

/-- One element of the `bss_vars` comprehension in
`process_section_requirements`: all four fields are direct subscripts. -/
def procBssVar (var : Raw) : Except PyErr BssVariable := do
  let name ← pySubscript var "name"
  let size ← pySubscript var "size"
  let align ← pySubscript var "align"
  let purpose ← pySubscript var "purpose"
  return ⟨name, size, align, purpose⟩

/-- `process_section_requirements`. -/
def process_section_requirements (d : List (String × Raw)) :
    Except PyErr SectionRequirements := do
  let reqs := dGet d "section_requirements" (.map [])
  let bssRaw ← reqs.getD "bss" (.map [])
  let varsRaw ← bssRaw.getD "variables" (.list [])
  let vars ← pyIter varsRaw
  let bss ← mapE procBssVar vars
  let dataField ← reqs.getD "data" (.list [])
  let text ← reqs.getD "text" (.map [])
  return ⟨dataField, bss, text⟩

/-- One element of the `benchmarks` comprehension in `process_performance`:
`name` and `input_size` are direct subscripts, `expected_time` defaults to
`None`. -/
def procBenchmark (bench : Raw) : Except PyErr Benchmark := do
  let name ← pySubscript bench "name"
  let input_size ← pySubscript bench "input_size"
  let expected_time ← bench.getN "expected_time"
  let requirements ← bench.getD "requirements" (.list [])
  return ⟨name, input_size, expected_time, requirements⟩

/-- `process_performance`. -/
def process_performance (d : List (String × Raw)) : Except PyErr Performance := do
  let perf := dGet d "performance" (.map [])
  let benchesRaw ← perf.getD "benchmarks" (.list [])
  let benches ← pyIter benchesRaw
  let benchmarks ← mapE procBenchmark benches
  let time_complexity ← perf.getD "time_complexity" (.str "")
  let space_complexity ← perf.getD "space_complexity" (.str "")
  let constraints ← perf.getD "constraints" (.list [])
  let register_usage ← perf.getD "register_usage" (.list [])
  let memory_access ← perf.getD "memory_access" (.list [])
  return ⟨time_complexity, space_complexity, constraints, register_usage,
          memory_access, benchmarks⟩

/-- The body of the `unit_tests` loop in `process_testing`: a bare string
becomes a placeholder `TestCase`; anything else is subscripted for `name`
with `"TBD"` defaults for input/expected_output. -/
def procUnitTest (test : Raw) : Except PyErr TestCase :=
  match test with
  | .str s => .ok ⟨.str s, .str "TBD", .str "TBD", .list []⟩
  | t => do
    let name ← pySubscript t "name"
    let input ← t.getD "input" (.str "TBD")
    let expected_output ← t.getD "expected_output" (.str "TBD")
    let validation ← t.getD "validation" (.list [])
    return ⟨name, input, expected_output, validation⟩

/-- The body of the `integration_tests` loop in `process_testing`: a bare
string is wrapped as `{name: s}`; anything else is appended unchanged. -/
def procIntegrationTest (test : Raw) : Raw :=
  match test with
  | .str s => .map [("name", .str s)]
  | t => t

/-- The body of the `conformance_tests` loop in `process_testing`: a bare
string is wrapped as `{standard: s}`; anything else is appended unchanged. -/
def procConformanceTest (test : Raw) : Raw :=
  match test with
  | .str s => .map [("standard", .str s)]
  | t => t

/-- `process_testing`. -/
def process_testing (d : List (String × Raw)) : Except PyErr Testing := do
  let test_data := dGet d "testing" (.map [])
  let unitRaw ← test_data.getD "unit_tests" (.list [])
  let unitEntries ← pyIter unitRaw
  let unit_tests ← mapE procUnitTest unitEntries
  let integrationRaw ← test_data.getD "integration_tests" (.list [])
  let integrationEntries ← pyIter integrationRaw
  let integration_tests := integrationEntries.map procIntegrationTest
  let conformanceRaw ← test_data.getD "conformance_tests" (.list [])
  let conformanceEntries ← pyIter conformanceRaw
  let conformance_tests := conformanceEntries.map procConformanceTest
  return ⟨unit_tests, integration_tests, conformance_tests⟩

/-- `process_code_style`. -/
def process_code_style (d : List (String × Raw)) : Except PyErr CodeStyle := do
  let style := dGet d "code_style" (.map [])
  let indentation ← style.getD "indentation" (.list [])
  let comments ← style.getD "comments" (.list [])
  let naming ← style.getD "naming" (.list [])
  let organization ← style.getD "organization" (.list [])
  return ⟨indentation, comments, naming, organization⟩

/-- The body of `_create_specification`'s `try` block: build the
`Specification` by running the ten processors in constructor-argument order,
letting the first modelled exception escape. -/
def normalize (d : List (String × Raw)) : Except PyErr Specification := do
  let metadata := process_metadata d
  let header_format ← process_header_format d
  let register_usage ← process_register_usage d
  let structures ← process_data_structures d
  let algorithms ← process_algorithms d
  let error_handling ← process_error_handling d
  let section_requirements ← process_section_requirements d
  let performance ← process_performance d
  let testing ← process_testing d
  let code_style ← process_code_style d
  return ⟨metadata, header_format, register_usage, structures, algorithms,
          error_handling, section_requirements, performance, testing, code_style⟩

/-- SpecForge's error classes as surfaced to the caller. -/
inductive SpecErr where
  | validationError (msg : String)
  | specForgeError (msg : String)

/-- Python `str(e)` of a modelled exception (`str(KeyError(k))` is the quoted
key). -/
def pyErrStr : PyErr → String
  | .keyError k => pyq k
  | .typeError m => m
  | .attributeError m => m

/-- Python `str(e)` of a SpecForge error (the message). -/
def specErrStr : SpecErr → String
  | .validationError m => m
  | .specForgeError m => m

/-- `SpecForge._create_specification`: a `KeyError` is re-raised as
`ValidationError("Missing required field: <key>")`, any other exception as
`SpecForgeError("Error creating specification: ...")`. -/
def create_specification (d : List (String × Raw)) : Except SpecErr Specification :=
  match normalize d with
  | .ok s => .ok s
  | .error (.keyError k) =>
    .error (.validationError ("Missing required field: " ++ pyq k))
  | .error e =>
    .error (.specForgeError ("Error creating specification: " ++ pyErrStr e))

/-! ### The renderer: `OutputFormatter.format_text`.

The Python function fills one `lines` list and joins it at the end; an
exception anywhere discards everything.  We build the same list section by
section in `Except`, in the exact append order of the source. -/

/-- Metadata block: three direct subscripts into the metadata dict. -/
def renderMetadata (metadata : Raw) : Except PyErr (List String) := do
  let n ← pySubscript metadata "name"
  let v ← pySubscript metadata "version"
  let descr ← pySubscript metadata "description"
  return ["=== SPECIFICATION ===", "Name: " ++ pyStr n, "Version: " ++ pyStr v,
          "Description: " ++ pyStr descr, ""]

/-- Header-format block.  Only `border_line`, `assembly_lines` and
`directives` are emitted. -/
def renderHeaderFormat (h : HeaderFormat) : Except PyErr (List String) := do
  let asm ← pyIter h.assembly_lines
  let dirs ← pyIter h.directives
  return ["=== HEADER FORMAT ===", "Border Line: " ++ pyStr h.border_line,
          "Assembly Lines:"]
    ++ asm.map (fun l => "  " ++ pyStr l)
    ++ ["Directives:"]
    ++ dirs.map (fun dr => "  " ++ pyStr dr)
    ++ [""]

/-- One register of the register-usage block; the byte-register line and the
constraints sub-block are conditional on truthiness. -/
def renderRegister (reg : RegisterInfo) : Except PyErr (List String) := do
  let byteLines ←
    if truthy reg.byte_regs then do
      let joined ← pyJoin ", " reg.byte_regs
      pure ["Byte Registers: " ++ joined]
    else pure []
  let consLines ←
    if truthy reg.constraints then do
      let cs ← pyIter reg.constraints
      pure ("Constraints:" :: cs.map (fun c => "  - " ++ pyStr c))
    else pure []
  return ["Register: " ++ pyStr reg.name, "Purpose: " ++ pyStr reg.purpose]
    ++ byteLines ++ consLines ++ [""]

def renderRegisterUsage (ru : RegisterUsage) : Except PyErr (List String) := do
  let blocks ← mapE renderRegister ru.general_purpose
  return "=== REGISTER USAGE ===" :: blocks.flatten

/-- The one line emitted per data-structure field: name, type and description
(per-field `constraints` are not emitted). -/
def fieldLine (f : Field) : String :=
  "  " ++ pyStr f.name ++ " (" ++ pyStr f.type ++ "): " ++ pyStr f.description

/-- One data structure; `examples` and `complexity` are never emitted, and
per-field `constraints` are never emitted. -/
def renderStructure (p : String × DataStructure) : Except PyErr (List String) := do
  let struct := p.2
  let consLines ←
    if truthy struct.constraints then do
      let cs ← pyIter struct.constraints
      pure ("Constraints:" :: cs.map (fun c => "  - " ++ pyStr c))
    else pure []
  return ["Structure: " ++ p.1, "Documentation: " ++ pyStr struct.documentation,
          "Fields:"]
    ++ struct.fields.map fieldLine
    ++ consLines ++ [""]

def renderStructures (structures : List (String × DataStructure)) :
    Except PyErr (List String) := do
  let blocks ← mapE renderStructure structures
  return "=== DATA STRUCTURES ===" :: blocks.flatten

/-- The `Steps:` sub-block of one algorithm: `algo.steps.items()` requires a
dict; each step's actions are iterated in list order. -/
def renderSteps (steps : Raw) : Except PyErr (List String) := do
  let items ← pyItems steps
  let blocks ← mapE (fun p => do
    let actions ← pyIter p.2
    pure (("  " ++ p.1 ++ ":") :: actions.map (fun a => "    - " ++ pyStr a))) items
  return "Steps:" :: blocks.flatten

/-- A conditional `header:` + `  - item` block (edge cases, pre/postconditions,
invariants). -/
def renderCondBlock (v : Raw) (header : String) : Except PyErr (List String) :=
  if truthy v then do
    let items ← pyIter v
    pure (header :: items.map (fun i => "  - " ++ pyStr i))
  else pure []

/-- One algorithm block; `complexity` and `examples` are never emitted. -/
def renderAlgorithm (p : String × Algorithm) : Except PyErr (List String) := do
  let algo := p.2
  let memOps ← pyIter algo.implementation_requirements.memory_operations
  let encs ← pyIter algo.implementation_requirements.encoding_requirements
  let lefts ← pyIter algo.implementation_requirements.leftover_handling
  let oneB ← pyIter algo.implementation_requirements.padding_rules.one_byte
  let twoB ← pyIter algo.implementation_requirements.padding_rules.two_bytes
  let stepLines ← renderSteps algo.steps
  let edges ← renderCondBlock algo.edge_cases "Edge Cases:"
  let pres ← renderCondBlock algo.preconditions "Preconditions:"
  let posts ← renderCondBlock algo.postconditions "Postconditions:"
  let invs ← renderCondBlock algo.invariants "Invariants:"
  return ["Algorithm: " ++ p.1, "Description: " ++ pyStr algo.description,
          "Implementation Requirements:", "  Memory Operations:"]
    ++ memOps.map (fun o => "    - " ++ pyStr o)
    ++ ["  Encoding Requirements:"]
    ++ encs.map (fun r => "    - " ++ pyStr r)
    ++ ["  Leftover Handling:"]
    ++ lefts.map (fun hd => "    - " ++ pyStr hd)
    ++ ["  Padding Rules:", "    One Byte:"]
    ++ oneB.map (fun r => "      - " ++ pyStr r)
    ++ ["    Two Bytes:"]
    ++ twoB.map (fun r => "      - " ++ pyStr r)
    ++ stepLines ++ edges ++ pres ++ posts ++ invs ++ [""]

def renderAlgorithms (algorithms : List (String × Algorithm)) :
    Except PyErr (List String) := do
  let blocks ← mapE renderAlgorithm algorithms
  return "=== ALGORITHMS ===" :: blocks.flatten

/-- The error-handling block.  The `strategies` value is type-inspected the
way the source does (dict branch, dead list branch, silent otherwise). -/
def renderErrorHandling (eh : ErrorHandling) : Except PyErr (List String) := do
  let stratLines ←
    match eh.strategies with
    | .map m => do
      let blocks ← mapE (fun p => do
        let steps ← pyIter p.2
        pure (("  " ++ p.1 ++ ":") :: steps.map (fun s => "    - " ++ pyStr s))) m
      pure blocks.flatten
    | .list l => pure (l.map (fun s => "  - " ++ pyStr s))
    | _ => pure []
  let etBlocks ← mapE (fun et => do
    let handles ← pyIter et.handling
    pure (["  " ++ pyStr et.name ++ ":", "    Description: " ++ pyStr et.description,
           "    Handling:"]
      ++ handles.map (fun hd => "      - " ++ pyStr hd))) eh.error_types
  let sysc ← pyIter eh.syscall_requirements
  return ["=== ERROR HANDLING ===", "Strategies:"] ++ stratLines
    ++ ["Error Types:"] ++ etBlocks.flatten
    ++ ["Syscall Requirements:"] ++ sysc.map (fun r => "  - " ++ pyStr r)
    ++ [""]

def renderSectionRequirements (sr : SectionRequirements) :
    Except PyErr (List String) := do
  let dataLines ← pyIter sr.data
  let bssBlocks := sr.bss.map (fun v =>
    ["  " ++ pyStr v.name ++ ":", "    Size: " ++ pyStr v.size,
     "    Align: " ++ pyStr v.align, "    Purpose: " ++ pyStr v.purpose])
  let textItems ← pyItems sr.text
  let textBlocks ← mapE (fun p => do
    let reqs ← pyIter p.2
    pure (("  " ++ p.1 ++ ":") :: reqs.map (fun r => "    - " ++ pyStr r))) textItems
  return ["=== SECTION REQUIREMENTS ===", "Data Section:"]
    ++ dataLines.map (fun r => "  - " ++ pyStr r)
    ++ ["BSS Section:"] ++ bssBlocks.flatten
    ++ ["Text Section:"] ++ textBlocks.flatten
    ++ [""]

/-- One benchmark; the expected-time line and the requirements sub-block are
conditional on truthiness. -/
def renderBenchmark (b : Benchmark) : Except PyErr (List String) := do
  let etLines := if truthy b.expected_time
    then ["    Expected Time: " ++ pyStr b.expected_time] else []
  let reqLines ←
    if truthy b.requirements then do
      let reqs ← pyIter b.requirements
      pure ("    Requirements:" :: reqs.map (fun r => "      - " ++ pyStr r))
    else pure []
  return ["  " ++ pyStr b.name ++ ":", "    Input Size: " ++ pyStr b.input_size]
    ++ etLines ++ reqLines

def renderPerformance (p : Performance) : Except PyErr (List String) := do
  let cons ← pyIter p.constraints
  let ru ← pyIter p.register_usage
  let ma ← pyIter p.memory_access
  let benchBlocks ← mapE renderBenchmark p.benchmarks
  return ["=== PERFORMANCE ===", "Time Complexity: " ++ pyStr p.time_complexity,
          "Space Complexity: " ++ pyStr p.space_complexity, "Constraints:"]
    ++ cons.map (fun c => "  - " ++ pyStr c)
    ++ ["Register Usage:"] ++ ru.map (fun u => "  - " ++ pyStr u)
    ++ ["Memory Access:"] ++ ma.map (fun a => "  - " ++ pyStr a)
    ++ ["Benchmarks:"] ++ benchBlocks.flatten
    ++ [""]

/-- One unit test; the validation sub-block is conditional on truthiness. -/
def renderUnitTest (t : TestCase) : Except PyErr (List String) := do
  let valLines ←
    if truthy t.validation then do
      let vals ← pyIter t.validation
      pure ("    Validation:" :: vals.map (fun v => "      - " ++ pyStr v))
    else pure []
  return ["  " ++ pyStr t.name ++ ":", "    Input: " ++ pyStr t.input,
          "    Expected Output: " ++ pyStr t.expected_output]
    ++ valLines

/-- One integration test: `test['name']` is a direct subscript, then every
other key is rendered, lists as sub-blocks. -/
def renderIntegrationTest (test : Raw) : Except PyErr (List String) := do
  let nm ← pySubscript test "name"
  let items ← pyItems test
  let kvLines := (items.filter (fun p => p.1 ≠ "name")).flatMap (fun p =>
    match p.2 with
    | .list l => ("    " ++ p.1 ++ ":") :: l.map (fun i => "      - " ++ pyStr i)
    | v => ["    " ++ p.1 ++ ": " ++ pyStr v])
  return ("  " ++ pyStr nm ++ ":") :: kvLines

/-- One conformance test: `test['standard']` is a direct subscript; test
vectors, when present, are subscripted for `input` and `output`. -/
def renderConformanceTest (test : Raw) : Except PyErr (List String) := do
  let std ← pySubscript test "standard"
  let hasVectors ← pyContains test "test_vectors"
  if hasVectors then do
    let tv ← pySubscript test "test_vectors"
    let vecs ← pyIter tv
    let vecLines ← mapE (fun v => do
      let i ← pySubscript v "input"
      let o ← pySubscript v "output"
      pure ["    Input: " ++ pyStr i, "    Output: " ++ pyStr o]) vecs
    return ["  Standard: " ++ pyStr std, "  Test Vectors:"] ++ vecLines.flatten
  else
    return ["  Standard: " ++ pyStr std]

def renderTesting (t : Testing) : Except PyErr (List String) := do
  let utBlocks ← mapE renderUnitTest t.unit_tests
  let itBlocks ← mapE renderIntegrationTest t.integration_tests
  let ctBlocks ← mapE renderConformanceTest t.conformance_tests
  return ["=== TESTING ===", "Unit Tests:"] ++ utBlocks.flatten
    ++ ["Integration Tests:"] ++ itBlocks.flatten
    ++ ["Conformance Tests:"] ++ ctBlocks.flatten
    ++ [""]

def renderCodeStyle (cs : CodeStyle) : Except PyErr (List String) := do
  let inds ← pyIter cs.indentation
  let coms ← pyIter cs.comments
  let nams ← pyIter cs.naming
  let orgs ← pyIter cs.organization
  return ["=== CODE STYLE ===", "Indentation:"]
    ++ inds.map (fun i => "  - " ++ pyStr i)
    ++ ["Comments:"] ++ coms.map (fun c => "  - " ++ pyStr c)
    ++ ["Naming:"] ++ nams.map (fun n => "  - " ++ pyStr n)
    ++ ["Organization:"] ++ orgs.map (fun o => "  - " ++ pyStr o)

/-- The full `lines` list built by `OutputFormatter.format_text`. -/
def formatLines (spec : Specification) : Except PyErr (List String) := do
  let metaL ← renderMetadata spec.metadata
  let headL ← renderHeaderFormat spec.header_format
  let regL ← renderRegisterUsage spec.register_usage
  let structL ← renderStructures spec.structures
  let algoL ← renderAlgorithms spec.algorithms
  let errL ← renderErrorHandling spec.error_handling
  let secL ← renderSectionRequirements spec.section_requirements
  let perfL ← renderPerformance spec.performance
  let testL ← renderTesting spec.testing
  let styleL ← renderCodeStyle spec.code_style
  return metaL ++ headL ++ regL ++ structL ++ algoL ++ errL ++ secL ++ perfL
    ++ testL ++ styleL

/-- `OutputFormatter.format_text`: the lines joined with newlines. -/
def format_text (spec : Specification) : Except PyErr String := do
  let lines ← formatLines spec
  return String.intercalate "\n" lines

/-- `SpecForge.process_spec`: any exception from specification creation or
formatting is caught and re-raised as
`SpecForgeError("Failed to process specification: " + str(e))`. -/
def process_spec (d : List (String × Raw)) : Except SpecErr String :=
  match create_specification d with
  | .error e =>
    .error (.specForgeError ("Failed to process specification: " ++ specErrStr e))
  | .ok spec =>
    match format_text spec with
    | .ok out => .ok out
    | .error e =>
      .error (.specForgeError ("Failed to process specification: " ++ pyErrStr e))

/-! ### Well-shapedness of a raw document.

`ws d` is a decidable, purely structural condition on the raw document under
which every processor and every renderer step with a non-metadata input is
exception-free: every present section is a mapping, every list-valued field is
a list, and every item supplies the fields the pipeline reads by direct
subscript.  It deliberately says nothing about the presence of the three
metadata keys, which are checked separately by `metaComplete` /
`firstMissingMeta`. -/

def isMapB : Raw → Bool
  | .map _ => true
  | _ => false

def isListB : Raw → Bool
  | .list _ => true
  | _ => false

def isStrB : Raw → Bool
  | .str _ => true
  | _ => false

/-- The key is present in the raw dict. -/
def hasKeyB (m : List (String × Raw)) (k : String) : Bool :=
  (lookupRaw m k).isSome

/-- The key is absent, or its value satisfies `p`. -/
def optKeyB (m : List (String × Raw)) (k : String) (p : Raw → Bool) : Bool :=
  match lookupRaw m k with
  | some v => p v
  | none => true

/-- The key is absent or bound to a list. -/
def optListB (m : List (String × Raw)) (k : String) : Bool :=
  optKeyB m k isListB

def wsHeaderFormat : Raw → Bool
  | .map m => optListB m "assembly_lines" && optListB m "directives"
  | _ => false

/-- One general-purpose register entry: a dict with `name` and `purpose`;
`byte_regs`, when present and truthy, must be joinable (a list of strings). -/
def wsReg : Raw → Bool
  | .map rm =>
    hasKeyB rm "name" && hasKeyB rm "purpose" &&
    optKeyB rm "byte_regs" (fun v =>
      match v with
      | .list l => l.all isStrB
      | .str _ => true
      | .null => true
      | _ => false) &&
    optListB rm "constraints"
  | _ => false

def wsRegisterUsage : Raw → Bool
  | .map m =>
    optKeyB m "general_purpose" (fun v =>
      match v with
      | .list regs => regs.all wsReg
      | _ => false)
  | _ => false

def wsField : Raw → Bool
  | .map fm => hasKeyB fm "name" && hasKeyB fm "type"
  | _ => false

def wsStruct : Raw → Bool
  | .map m =>
    optKeyB m "fields" (fun v =>
      match v with
      | .list fl => fl.all wsField
      | _ => false) &&
    optListB m "constraints"
  | _ => false

def wsStructures : Raw → Bool
  | .map sm => sm.all (fun p => wsStruct p.2)
  | _ => false

def wsImplReq : Raw → Bool
  | .map ir =>
    optListB ir "memory_operations" && optListB ir "encoding_requirements" &&
    optListB ir "leftover_handling" &&
    optKeyB ir "padding_rules" (fun v =>
      match v with
      | .map pr => optListB pr "one_byte" && optListB pr "two_bytes"
      | _ => false)
  | _ => false

def wsAlgo : Raw → Bool
  | .map m =>
    optKeyB m "implementation_requirements" wsImplReq &&
    optKeyB m "steps" (fun v =>
      match v with
      | .map sl => sl.all (fun q => isListB q.2)
      | _ => false) &&
    optListB m "edge_cases" && optListB m "preconditions" &&
    optListB m "postconditions" && optListB m "invariants"
  | _ => false

def wsAlgorithms : Raw → Bool
  | .map am => am.all (fun p => wsAlgo p.2)
  | _ => false

/-- An `error_types` entry: bare strings are expanded, dicts need `name` (and
an iterable `handling` when present); every other shape is silently skipped by
the processor and never reaches the renderer. -/
def wsErrEntry : Raw → Bool
  | .map em => hasKeyB em "name" && optListB em "handling"
  | _ => true

def wsErrorHandling : Raw → Bool
  | .map m =>
    optKeyB m "error_types" (fun v =>
      match v with
      | .list es => es.all wsErrEntry
      | _ => false) &&
    optKeyB m "strategies" (fun v =>
      match v with
      | .list _ => true
      | .map sm => sm.all (fun q => isListB q.2)
      | .str _ => true
      | .int _ => true
      | .null => true) &&
    optListB m "syscall_requirements"
  | _ => false

def wsBssVar : Raw → Bool
  | .map bm =>
    hasKeyB bm "name" && hasKeyB bm "size" && hasKeyB bm "align" &&
    hasKeyB bm "purpose"
  | _ => false

def wsSectionRequirements : Raw → Bool
  | .map m =>
    optKeyB m "bss" (fun v =>
      match v with
      | .map bm =>
        optKeyB bm "variables" (fun w =>
          match w with
          | .list vars => vars.all wsBssVar
          | _ => false)
      | _ => false) &&
    optListB m "data" &&
    optKeyB m "text" (fun v =>
      match v with
      | .map tm => tm.all (fun q => isListB q.2)
      | _ => false)
  | _ => false

def wsBench : Raw → Bool
  | .map bm =>
    hasKeyB bm "name" && hasKeyB bm "input_size" && optListB bm "requirements"
  | _ => false

def wsPerformance : Raw → Bool
  | .map m =>
    optKeyB m "benchmarks" (fun v =>
      match v with
      | .list bs => bs.all wsBench
      | _ => false) &&
    optListB m "constraints" && optListB m "register_usage" &&
    optListB m "memory_access"
  | _ => false

def wsUnit : Raw → Bool
  | .str _ => true
  | .map um => hasKeyB um "name" && optListB um "validation"
  | _ => false

def wsIntegration : Raw → Bool
  | .str _ => true
  | .map tm => hasKeyB tm "name"
  | _ => false

def wsVector : Raw → Bool
  | .map vm => hasKeyB vm "input" && hasKeyB vm "output"
  | _ => false

def wsConformance : Raw → Bool
  | .str _ => true
  | .map tm =>
    hasKeyB tm "standard" &&
    optKeyB tm "test_vectors" (fun v =>
      match v with
      | .list vl => vl.all wsVector
      | _ => false)
  | _ => false

def wsTesting : Raw → Bool
  | .map m =>
    optKeyB m "unit_tests" (fun v =>
      match v with
      | .list us => us.all wsUnit
      | _ => false) &&
    optKeyB m "integration_tests" (fun v =>
      match v with
      | .list ts => ts.all wsIntegration
      | _ => false) &&
    optKeyB m "conformance_tests" (fun v =>
      match v with
      | .list ts => ts.all wsConformance
      | _ => false)
  | _ => false

def wsCodeStyle : Raw → Bool
  | .map m =>
    optListB m "indentation" && optListB m "comments" && optListB m "naming" &&
    optListB m "organization"
  | _ => false

/-- Well-shapedness of the whole raw document (metadata keys excluded). -/
def ws (d : List (String × Raw)) : Bool :=
  isMapB (dGet d "metadata" (.map [])) &&
  wsHeaderFormat (dGet d "header_format" (.map [])) &&
  wsRegisterUsage (dGet d "register_usage" (.map [])) &&
  wsStructures (dGet d "structures" (.map [])) &&
  wsAlgorithms (dGet d "algorithms" (.map [])) &&
  wsErrorHandling (dGet d "error_handling" (.map [])) &&
  wsSectionRequirements (dGet d "section_requirements" (.map [])) &&
  wsPerformance (dGet d "performance" (.map [])) &&
  wsTesting (dGet d "testing" (.map [])) &&
  wsCodeStyle (dGet d "code_style" (.map []))

/-- All three mandatory metadata keys are present (on a dict-shaped
metadata value). -/
def metaComplete : Raw → Bool
  | .map m => hasKeyB m "name" && hasKeyB m "version" && hasKeyB m "description"
  | _ => false

/-- The first of `name`, `version`, `description` absent from the metadata
dict — the key on which the renderer's first subscript raises. -/
def firstMissingMeta : Raw → Option String
  | .map m =>
    if (lookupRaw m "name").isSome then
      if (lookupRaw m "version").isSome then
        if (lookupRaw m "description").isSome then none
        else some "description"
      else some "version"
    else some "name"
  | _ => none

/-! ### Scrubbing the renderer-invisible fields (for the dropped-field claim). -/

/-- Reset the per-field `constraints` (never rendered). -/
def scrubField (f : Field) : Field :=
  ⟨f.name, f.type, f.description, .list []⟩

/-- Reset `examples` and `complexity` of a structure and the constraints of
its fields (none of which are rendered). -/
def scrubStructure (s : DataStructure) : DataStructure :=
  ⟨s.name, s.fields.map scrubField, s.documentation, s.constraints,
   .list [], .map []⟩

/-- Reset `complexity` and `examples` of an algorithm (never rendered). -/
def scrubAlgorithm (a : Algorithm) : Algorithm :=
  ⟨a.name, a.description, a.implementation_requirements, a.steps, .map [],
   a.edge_cases, a.preconditions, a.postconditions, a.invariants, .list []⟩

/-- Reset every typed-model field the renderer never reads:
`HeaderFormat.file_name_line` / `description_line` / `blank_comment`,
`Field.constraints`, `DataStructure.examples` / `complexity`,
`Algorithm.complexity` / `examples`. -/
def scrubSpec (s : Specification) : Specification :=
  { s with
    header_format :=
      ⟨s.header_format.border_line, .str "", .str "", .str "",
       s.header_format.assembly_lines, s.header_format.directives⟩,
    structures := s.structures.map (fun p => (p.1, scrubStructure p.2)),
    algorithms := s.algorithms.map (fun p => (p.1, scrubAlgorithm p.2)) }

/-- The raw steps dict of a raw algorithm value (empty when absent or not a
dict), as stored by `procAlgorithm`. -/
def stepsOf (algoRaw : Raw) : List (String × Raw) :=
  match algoRaw with
  | .map m =>
    match (lookupRaw m "steps").getD (.map []) with
    | .map sl => sl
    | _ => []
  | _ => []

/-- The renderer piece succeeds on this value. -/
def RenderOk {α : Type} (render : α → Except PyErr (List String)) (t : α) : Prop :=
  ∃ lines, render t = .ok lines

/-- The flattened `Steps:` body for a raw steps dict whose values are action
lists: step names in dict order, each followed by its actions in list order. -/
def stepLinesOf (sl : List (String × Raw)) : List String :=
  sl.flatMap (fun q =>
    ("  " ++ q.1 ++ ":") ::
      (match q.2 with
       | .list acts => acts.map (fun a => "    - " ++ pyStr a)
       | _ => []))

/-- `pat` is a prefix of `l` (on character lists; structural, so it evaluates
inside the kernel). -/
def hasPrefixL : List Char → List Char → Bool
  | _, [] => true
  | [], _ :: _ => false
  | c :: cs, p :: ps => c = p && hasPrefixL cs ps

/-- `pat` occurs as a contiguous substring of `l`. -/
def hasSubstrL (l pat : List Char) : Bool :=
  match l with
  | [] => pat.isEmpty
  | _ :: cs => hasPrefixL l pat || hasSubstrL cs pat

/-- The pattern occurs as a substring of `s`. -/
def strContains (s pat : String) : Bool :=
  hasSubstrL s.toList pat.toList

/-! ### Concrete documents and models used by individual claims. -/

/-- The end-to-end scenario document: complete metadata, one structure with
one field, nothing else. -/
def endToEndDoc : List (String × Raw) :=
  [("metadata", .map [("name", .str "memcpy_impl"), ("version", .str "1.0"),
     ("description", .str "fast copy")]),
   ("structures", .map [("Header", .map [("fields", .list
     [.map [("name", .str "len"), ("type", .str "u32"),
            ("description", .str "length")]])])])]

/-- Complete metadata, and one register-usage item that omits `purpose`. -/
def regNoPurposeDoc : List (String × Raw) :=
  [("metadata", .map [("name", .str "demo"), ("version", .str "1.0"),
     ("description", .str "demo spec")]),
   ("register_usage", .map [("general_purpose", .list
     [.map [("name", .str "rax")]])])]

/-- Same failing register item, without bothering with metadata (normalization
never reads it). -/
def regNoPurposeDoc2 : List (String × Raw) :=
  [("register_usage", .map [("general_purpose", .list
     [.map [("name", .str "rbx")]])])]

/-- A register item and a benchmark that omit only their `None`-defaulted
optional fields. -/
def nullDefaultsDoc : List (String × Raw) :=
  [("register_usage", .map [("general_purpose", .list
     [.map [("name", .str "rax"), ("purpose", .str "counter")]])]),
   ("performance", .map [("benchmarks", .list
     [.map [("name", .str "large"), ("input_size", .str "1MB")]])])]

/-- Complete metadata and an integration test supplied as a mapping without a
`name` key. -/
def integrationNoNameDoc : List (String × Raw) :=
  [("metadata", .map [("name", .str "demo"), ("version", .str "1.0"),
     ("description", .str "demo spec")]),
   ("testing", .map [("integration_tests", .list
     [.map [("description", .str "end to end")]])])]

/-- Complete metadata and a conformance test supplied as a mapping without a
`standard` key. -/
def conformanceNoStandardDoc : List (String × Raw) :=
  [("metadata", .map [("name", .str "demo"), ("version", .str "1.0"),
     ("description", .str "demo spec")]),
   ("testing", .map [("conformance_tests", .list
     [.map [("suite", .str "basic")]])])]

/-- A typed model whose renderer-invisible fields are all populated with
values containing the marker `TOK`. -/
def droppedFieldsModel : Specification :=
  { metadata := .map [("name", .str "m"), ("version", .str "1"),
      ("description", .str "d")],
    header_format := ⟨.str ";----", .str "TOKFN", .str "TOKDL", .str "TOKBC",
      .list [], .list []⟩,
    register_usage := ⟨[]⟩,
    structures := [("S", ⟨"S",
      [⟨.str "f", .str "t", .str "fdesc", .list [.str "TOKFC"]⟩],
      .str "sdoc", .list [], .list [.str "TOKEX"],
      .map [("lookup", .str "TOKSC")]⟩)],
    algorithms := [("A", ⟨"A", .str "adesc",
      ⟨.list [], .list [], .list [], ⟨.list [], .list []⟩⟩,
      .map [("step1", .list [.str "act1"])],
      .map [("time", .str "TOKAC")],
      .list [], .list [], .list [], .list [], .list [.str "TOKAE"]⟩)],
    error_handling := ⟨.map [], [], .list []⟩,
    section_requirements := ⟨.list [], [], .map []⟩,
    performance := ⟨.str "", .str "", .list [], .list [], .list [], []⟩,
    testing := ⟨[], [], []⟩,
    code_style := ⟨.list [], .list [], .list [], .list []⟩ }

/-- A minimal well-shaped document supplying only the three metadata keys. -/
def metadataOnlyDoc : List (String × Raw) :=
  [("metadata", .map [("name", .str "x"), ("version", .str "1"),
     ("description", .str "d")])]

/-- The algorithms mapping A, B, C (A with two ordered steps) used to witness
order preservation. -/
def orderAlgos : List (String × Raw) :=
  [("A", .map [("steps", .map [("s1", .list [.str "a1", .str "a2"]),
     ("s2", .list [.str "b1"])])]),
   ("B", .map []),
   ("C", .map [])]

/-- Complete metadata plus the `orderAlgos` algorithms section. -/
def orderDoc : List (String × Raw) :=
  [("metadata", .map [("name", .str "x"), ("version", .str "1"),
     ("description", .str "d")]),
   ("algorithms", .map orderAlgos)]

/-! ## Theorems -/

set_option maxRecDepth 20000

theorem exc_bind_ok {α β : Type} (a : α) (f : α → Except PyErr β) :
    (Except.ok a >>= f) = f a := rfl

theorem exc_bind_err {α β : Type} (e : PyErr) (f : α → Except PyErr β) :
    ((Except.error e : Except PyErr α) >>= f) = Except.error e := rfl

theorem exc_pure {α : Type} (a : α) : (pure a : Except PyErr α) = Except.ok a := rfl

theorem mapE_nil (f : α → Except PyErr β) : mapE f [] = .ok [] := rfl

theorem mapE_cons (f : α → Except PyErr β) (x : α) (xs : List α) :
    mapE f (x :: xs) = (f x >>= fun y => mapE f xs >>= fun ys => .ok (y :: ys)) := rfl

theorem mapE_congr {f g : α → Except PyErr β} :
    ∀ {l : List α}, (∀ x ∈ l, f x = g x) → mapE f l = mapE g l
  | [], _ => rfl
  | x :: xs, h => by
    simp only [mapE, h x (List.mem_cons_self x xs)]
    rw [mapE_congr (fun y hy => h y (List.mem_cons_of_mem x hy))]

theorem mapE_map (f : β → Except PyErr γ) (g : α → β) :
    ∀ (l : List α), mapE f (l.map g) = mapE (fun x => f (g x)) l
  | [] => rfl
  | x :: xs => by
    simp only [List.map_cons, mapE, mapE_map f g xs]

/-- If `f` succeeds on every element, `mapE` succeeds with the pointwise
results, in order. -/
theorem mapE_ok_of_forall {f : α → Except PyErr β} {p : β → Prop} :
    ∀ {l : List α}, (∀ x ∈ l, ∃ y, f x = .ok y ∧ p y) →
    ∃ ys, mapE f l = .ok ys ∧ List.Forall₂ (fun x y => f x = .ok y ∧ p y) l ys
  | [], _ => ⟨[], rfl, List.Forall₂.nil⟩
  | x :: xs, h => by
    obtain ⟨y, hy, hp⟩ := h x (List.mem_cons_self x xs)
    obtain ⟨ys, hys, hall⟩ :=
      mapE_ok_of_forall (fun z hz => h z (List.mem_cons_of_mem x hz))
    exact ⟨y :: ys, by simp only [mapE, hy, hys, exc_bind_ok]; rfl,
      List.Forall₂.cons ⟨hy, hp⟩ hall⟩

/-- C9: the end-to-end scenario document — complete metadata plus one
structure `Header` with a single field — forges to exactly the report whose
`=== SPECIFICATION ===` block names `memcpy_impl`, whose
`=== DATA STRUCTURES ===` block lists `Structure: Header` with the one field
line `  len (u32): length`, and in which every other top-level section header
appears with an empty body. -/
theorem end_to_end_report :
    process_spec endToEndDoc = .ok ("=== SPECIFICATION ===\nName: memcpy_impl\nVersion: 1.0\nDescription: fast copy\n\n=== HEADER FORMAT ===\nBorder Line: \nAssembly Lines:\nDirectives:\n\n=== REGISTER USAGE ===\n=== DATA STRUCTURES ===\nStructure: Header\nDocumentation: \nFields:\n  len (u32): length\n\n=== ALGORITHMS ===\n=== ERROR HANDLING ===\nStrategies:\nError Types:\nSyscall Requirements:\n\n=== SECTION REQUIREMENTS ===\nData Section:\nBSS Section:\nText Section:\n\n=== PERFORMANCE ===\nTime Complexity: \nSpace Complexity: \nConstraints:\nRegister Usage:\nMemory Access:\nBenchmarks:\n\n=== TESTING ===\nUnit Tests:\nIntegration Tests:\nConformance Tests:\n\n=== CODE STYLE ===\nIndentation:\nComments:\nNaming:\nOrganization:") := by
  rfl

/-- C10: rendering is not total over the normalizer's output — an integration
test given as a mapping without `name`, or a conformance test without
`standard`, normalizes fine but makes `format_text` raise a `KeyError`, so the
forge operation fails on the whole document. -/
theorem render_partial_on_normalized_output :
    (∃ spec, create_specification integrationNoNameDoc = .ok spec ∧
      format_text spec = .error (.keyError "name")) ∧
    process_spec integrationNoNameDoc =
      .error (.specForgeError ("Failed to process specification: " ++ pyq "name")) ∧
    (∃ spec, create_specification conformanceNoStandardDoc = .ok spec ∧
      format_text spec = .error (.keyError "standard")) ∧
    process_spec conformanceNoStandardDoc =
      .error (.specForgeError ("Failed to process specification: " ++
        pyq "standard")) := by
  exact ⟨⟨_, rfl, rfl⟩, rfl, ⟨_, rfl, rfl⟩, rfl⟩

/-- C5: a bare `error_types` string `"overflow"` expands to the default
entity, and the already-expanded mapping with the same values normalizes to
the identical typed entity as the bare string, for every string. -/
theorem error_type_expansion_idempotent :
    (procErrorEntry (.str "overflow") =
      .ok (some ⟨.str "overflow", .str "Handle overflow",
        .list [.str "Detect", .str "Log", .str "Handle"]⟩)) ∧
    (∀ s : String,
      procErrorEntry (.map [("name", .str s),
        ("description", .str ("Handle " ++ s)),
        ("handling", .list [.str "Detect", .str "Log", .str "Handle"])]) =
      procErrorEntry (.str s)) ∧
    (process_error_handling [("error_handling", .map [("error_types",
        .list [.str "overflow"])])] =
      .ok ⟨.map [], [⟨.str "overflow", .str "Handle overflow",
        .list [.str "Detect", .str "Log", .str "Handle"]⟩], .list []⟩) := by
  refine ⟨rfl, fun s => ?_, rfl⟩
  rfl

/-- C6: `error_handling.strategies` normalizes a raw list to the single
`general` strategy, keeps a raw mapping unchanged, and turns any other raw
value — a string, an integer, `None`, or plain absence — into the empty
mapping. -/
theorem strategy_shape_reconciliation :
    (∀ L, process_error_handling [("error_handling",
        .map [("strategies", .list L)])] =
      .ok ⟨.map [("general", .list L)], [], .list []⟩) ∧
    (∀ m, process_error_handling [("error_handling",
        .map [("strategies", .map m)])] =
      .ok ⟨.map m, [], .list []⟩) ∧
    (∀ s, process_error_handling [("error_handling",
        .map [("strategies", .str s)])] =
      .ok ⟨.map [], [], .list []⟩) ∧
    (∀ n, process_error_handling [("error_handling",
        .map [("strategies", .int n)])] =
      .ok ⟨.map [], [], .list []⟩) ∧
    (process_error_handling [("error_handling",
        .map [("strategies", .null)])] =
      .ok ⟨.map [], [], .list []⟩) ∧
    (process_error_handling [("error_handling", .map [])] =
      .ok ⟨.map [], [], .list []⟩) := by
  exact ⟨fun L => rfl, fun m => rfl, fun s => rfl, fun n => rfl, rfl, rfl⟩

/-- C7: a bare-string unit test becomes a placeholder `TestCase` with `TBD`
input/expected output and no validation; a mapping unit test defaults absent
input/expected_output to `TBD`; bare integration and conformance strings wrap
into `{name: s}` / `{standard: s}` records, and mapping entries of either pass
through unchanged. -/
theorem testing_entry_shapes :
    (∀ s : String, procUnitTest (.str s) =
      .ok ⟨.str s, .str "TBD", .str "TBD", .list []⟩) ∧
    (∀ (m : List (String × Raw)) (nm : Raw), lookupRaw m "name" = some nm →
      lookupRaw m "input" = none → lookupRaw m "expected_output" = none →
      ∃ t, procUnitTest (.map m) = .ok t ∧ t.name = nm ∧
        t.input = .str "TBD" ∧ t.expected_output = .str "TBD") ∧
    (∀ s : String, procIntegrationTest (.str s) = .map [("name", .str s)]) ∧
    (∀ m : List (String × Raw), procIntegrationTest (.map m) = .map m) ∧
    (∀ s : String, procConformanceTest (.str s) = .map [("standard", .str s)]) ∧
    (∀ m : List (String × Raw), procConformanceTest (.map m) = .map m) := by
  refine ⟨fun s => rfl, fun m nm h1 h2 h3 => ?_, fun s => rfl, fun m => rfl,
    fun s => rfl, fun m => rfl⟩
  refine ⟨⟨nm, .str "TBD", .str "TBD", (lookupRaw m "validation").getD (.list [])⟩,
    ?_, rfl, rfl, rfl⟩
  simp [procUnitTest, pySubscript, Raw.getD, h1, h2, h3, exc_bind_ok]

theorem testing_entry_shapes_witness :
    ∃ t, procUnitTest (.map [("name", .str "t1")]) = .ok t ∧
      t.name = .str "t1" ∧ t.input = .str "TBD" ∧
      t.expected_output = .str "TBD" :=
  testing_entry_shapes.2.1 [("name", .str "t1")] (.str "t1") rfl rfl rfl

/-- C3 counterexample: a register item without `byte_regs` and a benchmark
without `expected_time` normalize with those fields bound to `None`
(`Raw.null`), not to an empty-but-present default. -/
theorem none_defaults_cex :
    ∃ spec, create_specification nullDefaultsDoc = .ok spec ∧
      spec.register_usage.general_purpose.map (fun r => r.byte_regs) = [.null] ∧
      spec.performance.benchmarks.map (fun b => b.expected_time) = [.null] :=
  ⟨_, rfl, rfl, rfl⟩

/-- C3 amended: after normalization every absent optional value resolves to an
empty-but-present default, except `RegisterInfo.byte_regs` and
`Benchmark.expected_time`, which resolve to `None` when absent (the other
optional fields of the very same items do get empty defaults). -/
theorem none_defaults_amended :
    (∀ (rm : List (String × Raw)) (nm pu : Raw),
      lookupRaw rm "name" = some nm → lookupRaw rm "purpose" = some pu →
      lookupRaw rm "byte_regs" = none → lookupRaw rm "constraints" = none →
      procRegister (.map rm) = .ok ⟨nm, pu, .null, .list []⟩) ∧
    (∀ (bm : List (String × Raw)) (nm sz : Raw),
      lookupRaw bm "name" = some nm → lookupRaw bm "input_size" = some sz →
      lookupRaw bm "expected_time" = none → lookupRaw bm "requirements" = none →
      procBenchmark (.map bm) = .ok ⟨nm, sz, .null, .list []⟩) := by
  constructor
  · intro rm nm pu h1 h2 h3 h4
    simp [procRegister, pySubscript, Raw.getD, Raw.getN, h1, h2, h3, h4, exc_bind_ok]
  · intro bm nm sz h1 h2 h3 h4
    simp [procBenchmark, pySubscript, Raw.getD, Raw.getN, h1, h2, h3, h4, exc_bind_ok]

theorem none_defaults_amended_witness :
    procRegister (.map [("name", .str "rax"), ("purpose", .str "p")]) =
      .ok ⟨.str "rax", .str "p", .null, .list []⟩ :=
  none_defaults_amended.1 [("name", .str "rax"), ("purpose", .str "p")]
    (.str "rax") (.str "p") rfl rfl rfl rfl

/-- C1 counterexample: this document supplies all three metadata fields with
non-empty values and is otherwise only missing fields (`purpose` on one
register item), yet the forge operation fails. -/
theorem mandatory_fields_cex :
    metaComplete (process_metadata regNoPurposeDoc) = true ∧
    process_spec regNoPurposeDoc =
      .error (.specForgeError ("Failed to process specification: " ++
        "Missing required field: " ++ pyq "purpose")) :=
  ⟨rfl, rfl⟩

/-- C2 counterexample: a present register-usage item that is merely missing
the non-metadata field `purpose` makes normalization itself raise a
missing-field validation failure instead of substituting a default. -/
theorem totality_cex :
    create_specification regNoPurposeDoc2 =
      .error (.validationError ("Missing required field: " ++ pyq "purpose")) :=
  rfl

theorem fieldLine_scrub (f : Field) : fieldLine (scrubField f) = fieldLine f :=
  rfl

theorem renderStructure_scrub (p : String × DataStructure) :
    renderStructure (p.1, scrubStructure p.2) = renderStructure p := by
  obtain ⟨n, sn, fl, doc, cons, ex, cx⟩ := p
  simp only [renderStructure, scrubStructure, List.map_map]
  rw [show fieldLine ∘ scrubField = fieldLine from funext fieldLine_scrub]

theorem renderStructures_scrub (l : List (String × DataStructure)) :
    renderStructures (l.map (fun p => (p.1, scrubStructure p.2))) =
      renderStructures l := by
  simp only [renderStructures, mapE_map]
  rw [mapE_congr (fun x _ => renderStructure_scrub x)]

theorem renderAlgorithm_scrub (p : String × Algorithm) :
    renderAlgorithm (p.1, scrubAlgorithm p.2) = renderAlgorithm p := by
  obtain ⟨n, a⟩ := p
  obtain ⟨an, ad, ir, st, cx, ec, pre, post, inv, ex⟩ := a
  rfl

theorem renderAlgorithms_scrub (l : List (String × Algorithm)) :
    renderAlgorithms (l.map (fun p => (p.1, scrubAlgorithm p.2))) =
      renderAlgorithms l := by
  simp only [renderAlgorithms, mapE_map]
  rw [mapE_congr (fun x _ => renderAlgorithm_scrub x)]

/-- C4 amended: the renderer emits every populated field of the typed model
except `HeaderFormat.file_name_line` / `description_line` / `blank_comment`,
`Field.constraints`, `DataStructure.examples` / `complexity` and
`Algorithm.complexity` / `examples`, which it never reads: the report is
unchanged when all of them are reset, however populated they were. -/
theorem dropped_fields_independent (spec : Specification) :
    format_text (scrubSpec spec) = format_text spec := by
  obtain ⟨md, hf, ru, sts, algs, eh, sr, pf, ts, cs⟩ := spec
  obtain ⟨bl, fnl, dl, bc, al, dv⟩ := hf
  simp only [format_text, formatLines, scrubSpec, renderHeaderFormat]
  rw [renderStructures_scrub, renderAlgorithms_scrub]

/-- C4 counterexample: a typed model whose dropped fields are populated (with
values containing the marker `TOK`) renders to a report in which none of those
values occur. -/
theorem dropped_fields_cex :
    (format_text droppedFieldsModel).toOption.map
        (fun out => strContains out "TOK") = some false ∧
    truthy droppedFieldsModel.header_format.file_name_line = true ∧
    truthy droppedFieldsModel.header_format.description_line = true ∧
    truthy droppedFieldsModel.header_format.blank_comment = true ∧
    droppedFieldsModel.structures.map (fun p =>
      truthy p.2.examples && truthy p.2.complexity &&
      p.2.fields.all (fun f => truthy f.constraints)) = [true] ∧
    droppedFieldsModel.algorithms.map (fun p =>
      truthy p.2.complexity && truthy p.2.examples) = [true] :=
  ⟨rfl, rfl, rfl, rfl, rfl, rfl⟩

/-! ### Helper lemmas for the totality theorems -/

theorem optKeyB_cases {m : List (String × Raw)} {k : String} {p : Raw → Bool}
    (h : optKeyB m k p = true) :
    lookupRaw m k = none ∨ ∃ v, lookupRaw m k = some v ∧ p v = true := by
  unfold optKeyB at h
  cases hv : lookupRaw m k with
  | none => exact Or.inl rfl
  | some v => rw [hv] at h; exact Or.inr ⟨v, rfl, h⟩

/-- A list-or-absent optional key yields a list after the `.get` default. -/
theorem optList_getD {m : List (String × Raw)} {k : String}
    (h : optListB m k = true) :
    ∃ l, (lookupRaw m k).getD (Raw.list []) = Raw.list l := by
  rcases optKeyB_cases h with hv | ⟨v, hv, hp⟩
  · exact ⟨[], by simp [hv]⟩
  · cases v with
    | list l => exact ⟨l, by simp [hv]⟩
    | str s => simp [isListB] at hp
    | int n => simp [isListB] at hp
    | map mm => simp [isListB] at hp
    | null => simp [isListB] at hp

theorem hasKey_lookup {m : List (String × Raw)} {k : String}
    (h : hasKeyB m k = true) : ∃ v, lookupRaw m k = some v := by
  unfold hasKeyB at h
  cases hv : lookupRaw m k with
  | none => rw [hv] at h; simp [Option.isSome] at h
  | some v => exact ⟨v, rfl⟩

theorem subscript_of_hasKey {m : List (String × Raw)} {k : String} {v : Raw}
    (h : lookupRaw m k = some v) : pySubscript (.map m) k = .ok v := by
  simp [pySubscript, h]

theorem asStrings_ok : ∀ {l : List Raw}, l.all isStrB = true →
    ∃ ss, asStrings l = .ok ss
  | [], _ => ⟨[], rfl⟩
  | x :: xs, h => by
    simp only [List.all_cons, Bool.and_eq_true] at h
    obtain ⟨ss, hss⟩ := asStrings_ok h.2
    cases x with
    | str s => exact ⟨s :: ss, by simp [asStrings, hss, exc_bind_ok]⟩
    | int n => simp [isStrB] at h
    | list l => simp [isStrB] at h
    | map m => simp [isStrB] at h
    | null => simp [isStrB] at h

theorem pyIter_list (l : List Raw) : pyIter (.list l) = .ok l := rfl

/-- A truthiness-guarded byte-register value as allowed by `wsReg` can always
be joined. -/
theorem byteRegs_join_ok {v : Raw}
    (h : (match v with
          | .list l => l.all isStrB
          | .str _ => true
          | .null => true
          | _ => false) = true) :
    truthy v = false ∨ ∃ s, pyJoin ", " v = .ok s := by
  cases v with
  | list l =>
    obtain ⟨ss, hss⟩ := asStrings_ok h
    exact Or.inr ⟨String.intercalate ", " ss, by simp [pyJoin, hss, exc_bind_ok]⟩
  | str s => exact Or.inr ⟨_, rfl⟩
  | null => exact Or.inl rfl
  | int n => simp at h
  | map m => simp at h

/-- The metadata block renders whenever the three mandatory keys are
present. -/
theorem renderMetadata_ok {v : Raw} (h : metaComplete v = true) :
    RenderOk renderMetadata v := by
  cases v with
  | map m =>
    simp only [metaComplete, Bool.and_eq_true] at h
    obtain ⟨⟨h1, h2⟩, h3⟩ := h
    obtain ⟨nv, hn⟩ := hasKey_lookup h1
    obtain ⟨vv, hv⟩ := hasKey_lookup h2
    obtain ⟨dv, hd⟩ := hasKey_lookup h3
    exact ⟨_, by simp [renderMetadata, pySubscript, hn, hv, hd, exc_bind_ok]; rfl⟩
  | str s => simp [metaComplete] at h
  | int n => simp [metaComplete] at h
  | list l => simp [metaComplete] at h
  | null => simp [metaComplete] at h

/-- The metadata block raises a `KeyError` on the first missing mandatory
key. -/
theorem renderMetadata_err {v : Raw} {k : String}
    (h : firstMissingMeta v = some k) :
    renderMetadata v = .error (.keyError k) := by
  cases v with
  | map m =>
    simp only [firstMissingMeta] at h
    cases hn : lookupRaw m "name" with
    | none =>
      rw [hn] at h
      simp only [Option.isSome_none, Bool.false_eq_true, if_false] at h
      cases h
      simp [renderMetadata, pySubscript, hn, exc_bind_err]
    | some nv =>
      rw [hn] at h
      simp only [Option.isSome_some, if_true] at h
      cases hv : lookupRaw m "version" with
      | none =>
        rw [hv] at h
        simp only [Option.isSome_none, Bool.false_eq_true, if_false] at h
        cases h
        simp [renderMetadata, pySubscript, hn, hv, exc_bind_ok, exc_bind_err]
      | some vv =>
        rw [hv] at h
        simp only [Option.isSome_some, if_true] at h
        cases hd : lookupRaw m "description" with
        | none =>
          rw [hd] at h
          simp only [Option.isSome_none, Bool.false_eq_true, if_false] at h
          cases h
          simp [renderMetadata, pySubscript, hn, hv, hd, exc_bind_ok, exc_bind_err]
        | some dv => rw [hd] at h; simp at h
  | str s => simp [firstMissingMeta] at h
  | int n => simp [firstMissingMeta] at h
  | list l => simp [firstMissingMeta] at h
  | null => simp [firstMissingMeta] at h

theorem header_ok {d : List (String × Raw)}
    (h : wsHeaderFormat (dGet d "header_format" (.map [])) = true) :
    ∃ t, process_header_format d = .ok t ∧ RenderOk renderHeaderFormat t := by
  cases hv : dGet d "header_format" (.map [])
  case map m =>
    rw [hv] at h
    simp only [wsHeaderFormat, Bool.and_eq_true] at h
    obtain ⟨h1, h2⟩ := h
    obtain ⟨la, hla⟩ := optList_getD h1
    obtain ⟨ld, hld⟩ := optList_getD h2
    refine ⟨⟨(lookupRaw m "border_line").getD (.str ""),
            (lookupRaw m "file_name_line").getD (.str ""),
            (lookupRaw m "description_line").getD (.str ""),
            (lookupRaw m "blank_comment").getD (.str ""),
            .list la, .list ld⟩, ?_, ⟨_, rfl⟩⟩
    simp [process_header_format, hv, Raw.getD, hla, hld, exc_bind_ok]
  all_goals (rw [hv] at h; simp [wsHeaderFormat] at h)

theorem procRegister_ok {r : Raw} (h : wsReg r = true) :
    ∃ y, procRegister r = .ok y ∧ RenderOk renderRegister y := by
  cases r
  case map rm =>
    simp only [wsReg, Bool.and_eq_true] at h
    obtain ⟨⟨⟨hn, hp⟩, hb⟩, hc⟩ := h
    obtain ⟨nv, hnv⟩ := hasKey_lookup hn
    obtain ⟨pv, hpv⟩ := hasKey_lookup hp
    obtain ⟨cl, hcl⟩ := optList_getD hc
    have hjoin : truthy ((lookupRaw rm "byte_regs").getD .null) = false ∨
        ∃ s, pyJoin ", " ((lookupRaw rm "byte_regs").getD .null) = .ok s := by
      rcases optKeyB_cases hb with hb0 | ⟨v, hb0, hbp⟩
      · rw [hb0]; exact Or.inl rfl
      · rw [hb0]; exact byteRegs_join_ok hbp
    refine ⟨⟨nv, pv, (lookupRaw rm "byte_regs").getD .null, .list cl⟩, ?_, ?_⟩
    · simp [procRegister, pySubscript, hnv, hpv, Raw.getN, Raw.getD, hcl,
        exc_bind_ok]
    · unfold RenderOk
      cases hbt : truthy ((lookupRaw rm "byte_regs").getD .null) with
      | false =>
        cases hct : truthy (Raw.list cl) with
        | false => simp [renderRegister, hbt, hct, exc_bind_ok, exc_pure]
        | true => simp [renderRegister, hbt, hct, pyIter, exc_bind_ok, exc_pure]
      | true =>
        rcases hjoin with hjf | ⟨s, hjs⟩
        · rw [hbt] at hjf; cases hjf
        · cases hct : truthy (Raw.list cl) with
          | false => simp [renderRegister, hbt, hct, hjs, exc_bind_ok, exc_pure]
          | true => simp [renderRegister, hbt, hct, hjs, pyIter, exc_bind_ok, exc_pure]
  all_goals simp [wsReg] at h

/-- Every element of the right list of a `Forall₂` is related to some element
of the left list. -/
theorem forall₂_mem_right {R : α → β → Prop} :
    ∀ {l : List α} {ys : List β}, List.Forall₂ R l ys →
    ∀ y ∈ ys, ∃ x ∈ l, R x y := by
  intro l ys h
  induction h with
  | nil => intro y hy; cases hy
  | cons hr _ ih =>
    intro y hy
    rcases List.mem_cons.1 hy with hy | hy
    · subst hy
      exact ⟨_, List.mem_cons_self _ _, hr⟩
    · obtain ⟨x, hx, hxy⟩ := ih y hy
      exact ⟨x, List.mem_cons_of_mem _ hx, hxy⟩

theorem registers_ok {d : List (String × Raw)}
    (h : wsRegisterUsage (dGet d "register_usage" (.map [])) = true) :
    ∃ t, process_register_usage d = .ok t ∧ RenderOk renderRegisterUsage t := by
  cases hv : dGet d "register_usage" (.map [])
  case map m =>
    rw [hv] at h
    simp only [wsRegisterUsage] at h
    rcases optKeyB_cases h with hgp | ⟨v, hgp, hp⟩
    · refine ⟨⟨[]⟩, ?_, ⟨_, rfl⟩⟩
      simp [process_register_usage, hv, Raw.getD, hgp, pyIter, mapE, exc_bind_ok]
    · cases v with
      | list regs =>
        have hall : ∀ x ∈ regs, ∃ y, procRegister x = .ok y ∧
            RenderOk renderRegister y := by
          intro x hx
          exact procRegister_ok (by
            rw [List.all_eq_true] at hp
            exact hp x hx)
        obtain ⟨ys, hys, hfa⟩ := mapE_ok_of_forall hall
        have hrend : ∀ y ∈ ys, ∃ b, renderRegister y = .ok b ∧ True := by
          intro y hy
          obtain ⟨x, -, -, lines, hlines⟩ := forall₂_mem_right hfa y hy
          exact ⟨lines, hlines, trivial⟩
        obtain ⟨bs, hbs, -⟩ := mapE_ok_of_forall hrend
        refine ⟨⟨ys⟩, ?_, ?_⟩
        · simp [process_register_usage, hv, Raw.getD, hgp, pyIter, hys,
            exc_bind_ok]
        · unfold RenderOk
          simp [renderRegisterUsage, hbs, exc_bind_ok, exc_pure]
      | str s => simp at hp
      | int n => simp at hp
      | map mm => simp at hp
      | null => simp at hp
  all_goals (rw [hv] at h; simp [wsRegisterUsage] at h)

theorem procField_ok {f : Raw} (h : wsField f = true) :
    ∃ y, procField f = .ok y := by
  cases f
  case map fm =>
    simp only [wsField, Bool.and_eq_true] at h
    obtain ⟨hn, ht⟩ := h
    obtain ⟨nv, hnv⟩ := hasKey_lookup hn
    obtain ⟨tv, htv⟩ := hasKey_lookup ht
    exact ⟨⟨nv, tv, (lookupRaw fm "description").getD (.str ""),
            (lookupRaw fm "constraints").getD (.list [])⟩,
      by simp [procField, pySubscript, hnv, htv, Raw.getD, exc_bind_ok]⟩
  all_goals simp [wsField] at h

theorem procStructure_ok {n : String} {s : Raw} (h : wsStruct s = true) :
    ∃ ds, procStructure n s = .ok ds ∧ RenderOk renderStructure (n, ds) := by
  cases s
  case map m =>
    simp only [wsStruct, Bool.and_eq_true] at h
    obtain ⟨hf, hc⟩ := h
    obtain ⟨cl, hcl⟩ := optList_getD hc
    have hfields : ∃ fl fs, (lookupRaw m "fields").getD (.list []) = .list fl ∧
        mapE procField fl = .ok fs := by
      rcases optKeyB_cases hf with hf0 | ⟨v, hf0, hfp⟩
      · exact ⟨[], [], by simp [hf0], rfl⟩
      · cases v with
        | list fl =>
          have : ∀ x ∈ fl, ∃ y, procField x = .ok y ∧ True := by
            intro x hx
            obtain ⟨y, hy⟩ := procField_ok (by
              rw [List.all_eq_true] at hfp
              exact hfp x hx)
            exact ⟨y, hy, trivial⟩
          obtain ⟨fs, hfs, -⟩ := mapE_ok_of_forall this
          exact ⟨fl, fs, by simp [hf0], hfs⟩
        | str a => simp at hfp
        | int a => simp at hfp
        | map a => simp at hfp
        | null => simp at hfp
    obtain ⟨fl, fs, hfl, hfs⟩ := hfields
    refine ⟨⟨n, fs, (lookupRaw m "documentation").getD (.str ""), .list cl,
            (lookupRaw m "examples").getD (.list []),
            (lookupRaw m "complexity").getD (.map [])⟩, ?_, ?_⟩
    · simp [procStructure, Raw.getD, hfl, pyIter, hfs, hcl, exc_bind_ok]
    · unfold RenderOk
      cases hct : truthy (Raw.list cl) with
      | false => simp [renderStructure, hct, exc_bind_ok, exc_pure]
      | true => simp [renderStructure, hct, pyIter, exc_bind_ok, exc_pure]
  all_goals simp [wsStruct] at h

theorem structures_ok {d : List (String × Raw)}
    (h : wsStructures (dGet d "structures" (.map [])) = true) :
    ∃ t, process_data_structures d = .ok t ∧ RenderOk renderStructures t := by
  cases hv : dGet d "structures" (.map [])
  case map sm =>
    rw [hv] at h
    simp only [wsStructures, List.all_eq_true] at h
    have hall : ∀ p ∈ sm, ∃ y,
        (match procStructure p.1 p.2 with
         | .ok ds => .ok (p.1, ds)
         | .error e => .error e : Except PyErr (String × DataStructure)) = .ok y ∧
        RenderOk renderStructure y := by
      intro p hp
      obtain ⟨ds, hds, hr⟩ := procStructure_ok (n := p.1) (h p hp)
      exact ⟨(p.1, ds), by simp [hds], hr⟩
    obtain ⟨ys, hys, hfa⟩ := mapE_ok_of_forall hall
    have hrend : ∀ y ∈ ys, ∃ b, renderStructure y = .ok b ∧ True := by
      intro y hy
      obtain ⟨x, -, -, lines, hlines⟩ := forall₂_mem_right hfa y hy
      exact ⟨lines, hlines, trivial⟩
    obtain ⟨bs, hbs, -⟩ := mapE_ok_of_forall hrend
    refine ⟨ys, ?_, ?_⟩
    · simp [process_data_structures, hv, pyItems, hys, exc_bind_ok]
    · unfold RenderOk
      simp [renderStructures, hbs, exc_bind_ok, exc_pure]
  all_goals (rw [hv] at h; simp [wsStructures] at h)

theorem code_style_ok {d : List (String × Raw)}
    (h : wsCodeStyle (dGet d "code_style" (.map [])) = true) :
    ∃ t, process_code_style d = .ok t ∧ RenderOk renderCodeStyle t := by
  cases hv : dGet d "code_style" (.map [])
  case map m =>
    rw [hv] at h
    simp only [wsCodeStyle, Bool.and_eq_true] at h
    obtain ⟨⟨⟨h1, h2⟩, h3⟩, h4⟩ := h
    obtain ⟨l1, hl1⟩ := optList_getD h1
    obtain ⟨l2, hl2⟩ := optList_getD h2
    obtain ⟨l3, hl3⟩ := optList_getD h3
    obtain ⟨l4, hl4⟩ := optList_getD h4
    refine ⟨⟨.list l1, .list l2, .list l3, .list l4⟩, ?_, ⟨_, rfl⟩⟩
    simp [process_code_style, hv, Raw.getD, hl1, hl2, hl3, hl4, exc_bind_ok]
  all_goals (rw [hv] at h; simp [wsCodeStyle] at h)

/-- Like `optList_getD`, for an arbitrary list-shaped default. -/
theorem optList_getDW {m : List (String × Raw)} {k : String}
    (dflt : List Raw) (h : optListB m k = true) :
    ∃ l, (lookupRaw m k).getD (Raw.list dflt) = Raw.list l := by
  rcases optKeyB_cases h with hv | ⟨v, hv, hp⟩
  · exact ⟨dflt, by simp [hv]⟩
  · cases v with
    | list l => exact ⟨l, by simp [hv]⟩
    | str s => simp [isListB] at hp
    | int n => simp [isListB] at hp
    | map mm => simp [isListB] at hp
    | null => simp [isListB] at hp

theorem procErrorEntry_ok {e : Raw} (h : wsErrEntry e = true) :
    ∃ o, procErrorEntry e = .ok o ∧
      ∀ et, o = some et → ∃ hl, et.handling = .list hl := by
  cases e with
  | str s =>
    refine ⟨some ⟨.str s, .str ("Handle " ++ s),
      .list [.str "Detect", .str "Log", .str "Handle"]⟩, rfl, ?_⟩
    intro et het
    cases het
    exact ⟨_, rfl⟩
  | map em =>
    simp only [wsErrEntry, Bool.and_eq_true] at h
    obtain ⟨hn, hh⟩ := h
    obtain ⟨nv, hnv⟩ := hasKey_lookup hn
    obtain ⟨hl, hhl⟩ :=
      optList_getDW [.str "Detect", .str "Log", .str "Handle"] hh
    refine ⟨some ⟨nv,
      (lookupRaw em "description").getD (.str ("Handle " ++ pyStr nv)),
      .list hl⟩, ?_, ?_⟩
    · simp [procErrorEntry, pySubscript, hnv, hhl, exc_bind_ok, exc_pure]
    · intro et het
      cases het
      exact ⟨_, rfl⟩
  | int n => exact ⟨none, rfl, fun et het => Option.noConfusion het⟩
  | list l => exact ⟨none, rfl, fun et het => Option.noConfusion het⟩
  | null => exact ⟨none, rfl, fun et het => Option.noConfusion het⟩

theorem strategies_shape {m : List (String × Raw)}
    (h : optKeyB m "strategies" (fun v =>
      match v with
      | .list _ => true
      | .map sm => sm.all (fun q => isListB q.2)
      | .str _ => true
      | .int _ => true
      | .null => true) = true) :
    ∃ sm, procStrategies ((lookupRaw m "strategies").getD (.map [])) = .map sm ∧
      sm.all (fun q => isListB q.2) = true := by
  rcases optKeyB_cases h with hv | ⟨v, hv, hp⟩
  · exact ⟨[], by simp [hv, procStrategies], rfl⟩
  · rw [hv]
    cases v with
    | list l => exact ⟨[("general", .list l)], rfl, rfl⟩
    | map sm => exact ⟨sm, rfl, hp⟩
    | str s => exact ⟨[], rfl, rfl⟩
    | int n => exact ⟨[], rfl, rfl⟩
    | null => exact ⟨[], rfl, rfl⟩

theorem error_handling_ok {d : List (String × Raw)}
    (h : wsErrorHandling (dGet d "error_handling" (.map [])) = true) :
    ∃ t, process_error_handling d = .ok t ∧ RenderOk renderErrorHandling t := by
  cases hv : dGet d "error_handling" (.map [])
  case map m =>
    rw [hv] at h
    simp only [wsErrorHandling, Bool.and_eq_true] at h
    obtain ⟨⟨het, hstrat⟩, hsys⟩ := h
    obtain ⟨sys, hsysl⟩ := optList_getD hsys
    obtain ⟨sm, hsm, hsmall⟩ := strategies_shape hstrat
    have hentries : ∃ es etOpts, (lookupRaw m "error_types").getD (.list []) =
        .list es ∧ mapE procErrorEntry es = .ok etOpts ∧
        ∀ o ∈ etOpts, ∀ et, o = some et → ∃ hl, et.handling = .list hl := by
      rcases optKeyB_cases het with he0 | ⟨v, he0, hep⟩
      · exact ⟨[], [], by simp [he0], rfl, by intro o ho; cases ho⟩
      · cases v with
        | list es =>
          have : ∀ x ∈ es, ∃ o, procErrorEntry x = .ok o ∧
              ∀ et, o = some et → ∃ hl, et.handling = .list hl := by
            intro x hx
            exact procErrorEntry_ok (by
              rw [List.all_eq_true] at hep
              exact hep x hx)
          obtain ⟨etOpts, hets, hfa⟩ := mapE_ok_of_forall this
          refine ⟨es, etOpts, by simp [he0], hets, ?_⟩
          intro o ho
          obtain ⟨x, -, -, hprop⟩ := forall₂_mem_right hfa o ho
          exact hprop
        | str a => simp at hep
        | int a => simp at hep
        | map a => simp at hep
        | null => simp at hep
    obtain ⟨es, etOpts, hes, hets, hprop⟩ := hentries
    have hhandles : ∀ et ∈ etOpts.filterMap id, ∃ hl, et.handling = .list hl := by
      intro et het2
      rw [List.mem_filterMap] at het2
      obtain ⟨o, ho, hid⟩ := het2
      exact hprop o ho et hid
    refine ⟨⟨.map sm, etOpts.filterMap id, .list sys⟩, ?_, ?_⟩
    · simp [process_error_handling, hv, Raw.getD, hes, pyIter, hets, hsm,
        hsysl, exc_bind_ok]
    · have hstratRender : ∃ bs, mapE (fun p => do
          let steps ← pyIter p.2
          pure (("  " ++ p.1 ++ ":") ::
            steps.map (fun s => "    - " ++ pyStr s))) sm = .ok bs := by
        have : ∀ q ∈ sm, ∃ b, (do
            let steps ← pyIter q.2
            pure (("  " ++ q.1 ++ ":") ::
              steps.map (fun s => "    - " ++ pyStr s)) :
            Except PyErr (List String)) = .ok b ∧ True := by
          intro q hq
          rw [List.all_eq_true] at hsmall
          have := hsmall q hq
          cases hq2 : q.2 with
          | list l =>
            exact ⟨("  " ++ q.1 ++ ":") :: l.map (fun s => "    - " ++ pyStr s),
              by simp [pyIter_list, hq2, exc_bind_ok, exc_pure], trivial⟩
          | str a => rw [hq2] at this; simp [isListB] at this
          | int a => rw [hq2] at this; simp [isListB] at this
          | map a => rw [hq2] at this; simp [isListB] at this
          | null => rw [hq2] at this; simp [isListB] at this
        obtain ⟨bs, hbs, -⟩ := mapE_ok_of_forall this
        exact ⟨bs, hbs⟩
      obtain ⟨sbs, hsbs⟩ := hstratRender
      have hetRender : ∃ ebs, mapE (fun et => do
          let handles ← pyIter et.handling
          pure (["  " ++ pyStr et.name ++ ":",
                 "    Description: " ++ pyStr et.description, "    Handling:"]
            ++ handles.map (fun hd => "      - " ++ pyStr hd)))
          (etOpts.filterMap id) = .ok ebs := by
        have : ∀ et ∈ etOpts.filterMap id, ∃ b, (do
            let handles ← pyIter et.handling
            pure (["  " ++ pyStr et.name ++ ":",
                   "    Description: " ++ pyStr et.description, "    Handling:"]
              ++ handles.map (fun hd => "      - " ++ pyStr hd)) :
            Except PyErr (List String)) = .ok b ∧ True := by
          intro et het2
          obtain ⟨hl, hhl⟩ := hhandles et het2
          exact ⟨["  " ++ pyStr et.name ++ ":",
                  "    Description: " ++ pyStr et.description, "    Handling:"]
              ++ hl.map (fun hd => "      - " ++ pyStr hd),
            by simp [hhl, pyIter_list, exc_bind_ok, exc_pure], trivial⟩
        obtain ⟨ebs, hebs, -⟩ := mapE_ok_of_forall this
        exact ⟨ebs, hebs⟩
      obtain ⟨ebs, hebs⟩ := hetRender
      unfold RenderOk
      simp only [renderErrorHandling]
      rw [hsbs, hebs]
      simp [pyIter_list, exc_bind_ok, exc_pure]
  all_goals (rw [hv] at h; simp [wsErrorHandling] at h)

theorem procBssVar_ok {v : Raw} (h : wsBssVar v = true) :
    ∃ y, procBssVar v = .ok y := by
  cases v
  case map bm =>
    simp only [wsBssVar, Bool.and_eq_true] at h
    obtain ⟨⟨⟨hn, hs⟩, ha⟩, hp⟩ := h
    obtain ⟨nv, hnv⟩ := hasKey_lookup hn
    obtain ⟨sv, hsv⟩ := hasKey_lookup hs
    obtain ⟨av, hav⟩ := hasKey_lookup ha
    obtain ⟨pv, hpv⟩ := hasKey_lookup hp
    exact ⟨⟨nv, sv, av, pv⟩,
      by simp [procBssVar, pySubscript, hnv, hsv, hav, hpv, exc_bind_ok]⟩
  all_goals simp [wsBssVar] at h

theorem sections_ok {d : List (String × Raw)}
    (h : wsSectionRequirements (dGet d "section_requirements" (.map [])) = true) :
    ∃ t, process_section_requirements d = .ok t ∧
      RenderOk renderSectionRequirements t := by
  cases hv : dGet d "section_requirements" (.map [])
  case map m =>
    rw [hv] at h
    simp only [wsSectionRequirements, Bool.and_eq_true] at h
    obtain ⟨⟨hbss, hdata⟩, htext⟩ := h
    obtain ⟨dl, hdl⟩ := optList_getD hdata
    have hbssres : ∃ bm vl bss,
        (lookupRaw m "bss").getD (.map []) = .map bm ∧
        (lookupRaw bm "variables").getD (.list []) = .list vl ∧
        mapE procBssVar vl = .ok bss := by
      rcases optKeyB_cases hbss with hb0 | ⟨v, hb0, hbp⟩
      · exact ⟨[], [], [], by simp [hb0], rfl, rfl⟩
      · cases v with
        | map bm =>
          have hvars : ∃ vl bss,
              (lookupRaw bm "variables").getD (.list []) = .list vl ∧
              mapE procBssVar vl = .ok bss := by
            rcases optKeyB_cases hbp with hv0 | ⟨w, hv0, hwp⟩
            · exact ⟨[], [], by simp [hv0], rfl⟩
            · cases w with
              | list vars =>
                have : ∀ x ∈ vars, ∃ y, procBssVar x = .ok y ∧ True := by
                  intro x hx
                  obtain ⟨y, hy⟩ := procBssVar_ok (by
                    rw [List.all_eq_true] at hwp
                    exact hwp x hx)
                  exact ⟨y, hy, trivial⟩
                obtain ⟨bss, hbssE, -⟩ := mapE_ok_of_forall this
                exact ⟨vars, bss, by simp [hv0], hbssE⟩
              | str a => simp at hwp
              | int a => simp at hwp
              | map a => simp at hwp
              | null => simp at hwp
          obtain ⟨vl, bss, h1, h2⟩ := hvars
          exact ⟨bm, vl, bss, by simp [hb0], h1, h2⟩
        | str a => simp at hbp
        | int a => simp at hbp
        | list a => simp at hbp
        | null => simp at hbp
    obtain ⟨bm, vl, bss, hbm, hvl, hbssE⟩ := hbssres
    have htextres : ∃ tm, (lookupRaw m "text").getD (.map []) = .map tm ∧
        tm.all (fun q => isListB q.2) = true := by
      rcases optKeyB_cases htext with ht0 | ⟨v, ht0, htp⟩
      · exact ⟨[], by simp [ht0], rfl⟩
      · cases v with
        | map tm => exact ⟨tm, by simp [ht0], htp⟩
        | str a => simp at htp
        | int a => simp at htp
        | list a => simp at htp
        | null => simp at htp
    obtain ⟨tm, htm, htmall⟩ := htextres
    have htRender : ∃ tbs, mapE (fun p => do
        let reqs ← pyIter p.2
        pure (("  " ++ p.1 ++ ":") ::
          reqs.map (fun r => "    - " ++ pyStr r))) tm = .ok tbs := by
      have : ∀ q ∈ tm, ∃ b, (do
          let reqs ← pyIter q.2
          pure (("  " ++ q.1 ++ ":") ::
            reqs.map (fun r => "    - " ++ pyStr r)) :
          Except PyErr (List String)) = .ok b ∧ True := by
        intro q hq
        rw [List.all_eq_true] at htmall
        have := htmall q hq
        cases hq2 : q.2 with
        | list l =>
          exact ⟨("  " ++ q.1 ++ ":") :: l.map (fun r => "    - " ++ pyStr r),
            by simp [pyIter_list, hq2, exc_bind_ok, exc_pure], trivial⟩
        | str a => rw [hq2] at this; simp [isListB] at this
        | int a => rw [hq2] at this; simp [isListB] at this
        | map a => rw [hq2] at this; simp [isListB] at this
        | null => rw [hq2] at this; simp [isListB] at this
      obtain ⟨tbs, htbs, -⟩ := mapE_ok_of_forall this
      exact ⟨tbs, htbs⟩
    obtain ⟨tbs, htbs⟩ := htRender
    refine ⟨⟨.list dl, bss, .map tm⟩, ?_, ?_⟩
    · simp [process_section_requirements, hv, Raw.getD, hbm, hvl, pyIter,
        hbssE, hdl, htm, exc_bind_ok]
    · unfold RenderOk
      simp only [renderSectionRequirements, pyIter_list, pyItems, exc_bind_ok]
      rw [htbs]
      simp [exc_bind_ok, exc_pure]
  all_goals (rw [hv] at h; simp [wsSectionRequirements] at h)

theorem procBenchmark_ok {b : Raw} (h : wsBench b = true) :
    ∃ y, procBenchmark b = .ok y ∧ RenderOk renderBenchmark y := by
  cases b
  case map bm =>
    simp only [wsBench, Bool.and_eq_true] at h
    obtain ⟨⟨hn, hi⟩, hr⟩ := h
    obtain ⟨nv, hnv⟩ := hasKey_lookup hn
    obtain ⟨iv, hiv⟩ := hasKey_lookup hi
    obtain ⟨rl, hrl⟩ := optList_getD hr
    refine ⟨⟨nv, iv, (lookupRaw bm "expected_time").getD .null, .list rl⟩,
      ?_, ?_⟩
    · simp [procBenchmark, pySubscript, hnv, hiv, Raw.getN, Raw.getD, hrl,
        exc_bind_ok]
    · unfold RenderOk
      cases hrt : truthy (Raw.list rl) with
      | false => simp [renderBenchmark, hrt, exc_bind_ok, exc_pure]
      | true => simp [renderBenchmark, hrt, pyIter_list, exc_bind_ok, exc_pure]
  all_goals simp [wsBench] at h

theorem performance_ok {d : List (String × Raw)}
    (h : wsPerformance (dGet d "performance" (.map [])) = true) :
    ∃ t, process_performance d = .ok t ∧ RenderOk renderPerformance t := by
  cases hv : dGet d "performance" (.map [])
  case map m =>
    rw [hv] at h
    simp only [wsPerformance, Bool.and_eq_true] at h
    obtain ⟨⟨⟨hb, hc⟩, hru⟩, hma⟩ := h
    obtain ⟨cl, hcl⟩ := optList_getD hc
    obtain ⟨rul, hrul⟩ := optList_getD hru
    obtain ⟨mal, hmal⟩ := optList_getD hma
    have hbres : ∃ bl benches, (lookupRaw m "benchmarks").getD (.list []) =
        .list bl ∧ mapE procBenchmark bl = .ok benches ∧
        ∀ y ∈ benches, RenderOk renderBenchmark y := by
      rcases optKeyB_cases hb with hb0 | ⟨v, hb0, hbp⟩
      · exact ⟨[], [], by simp [hb0], rfl, by intro y hy; cases hy⟩
      · cases v with
        | list bl =>
          have : ∀ x ∈ bl, ∃ y, procBenchmark x = .ok y ∧
              RenderOk renderBenchmark y := by
            intro x hx
            exact procBenchmark_ok (by
              rw [List.all_eq_true] at hbp
              exact hbp x hx)
          obtain ⟨benches, hbe, hfa⟩ := mapE_ok_of_forall this
          refine ⟨bl, benches, by simp [hb0], hbe, ?_⟩
          intro y hy
          obtain ⟨x, -, -, hprop⟩ := forall₂_mem_right hfa y hy
          exact hprop
        | str a => simp at hbp
        | int a => simp at hbp
        | map a => simp at hbp
        | null => simp at hbp
    obtain ⟨bl, benches, hbl, hbe, hbrend⟩ := hbres
    have hbrendE : ∃ bbs, mapE renderBenchmark benches = .ok bbs := by
      have : ∀ y ∈ benches, ∃ b, renderBenchmark y = .ok b ∧ True := by
        intro y hy
        obtain ⟨lines, hlines⟩ := hbrend y hy
        exact ⟨lines, hlines, trivial⟩
      obtain ⟨bbs, hbbs, -⟩ := mapE_ok_of_forall this
      exact ⟨bbs, hbbs⟩
    obtain ⟨bbs, hbbs⟩ := hbrendE
    refine ⟨⟨(lookupRaw m "time_complexity").getD (.str ""),
            (lookupRaw m "space_complexity").getD (.str ""),
            .list cl, .list rul, .list mal, benches⟩, ?_, ?_⟩
    · simp [process_performance, hv, Raw.getD, hbl, pyIter, hbe, hcl, hrul,
        hmal, exc_bind_ok]
    · unfold RenderOk
      simp only [renderPerformance, pyIter_list, exc_bind_ok]
      rw [hbbs]
      simp [exc_bind_ok, exc_pure]
  all_goals (rw [hv] at h; simp [wsPerformance] at h)

theorem procUnitTest_ok {u : Raw} (h : wsUnit u = true) :
    ∃ y, procUnitTest u = .ok y ∧ RenderOk renderUnitTest y := by
  cases u with
  | str s =>
    refine ⟨⟨.str s, .str "TBD", .str "TBD", .list []⟩, rfl, ⟨_, rfl⟩⟩
  | map um =>
    simp only [wsUnit, Bool.and_eq_true] at h
    obtain ⟨hn, hval⟩ := h
    obtain ⟨nv, hnv⟩ := hasKey_lookup hn
    obtain ⟨vl, hvl⟩ := optList_getD hval
    refine ⟨⟨nv, (lookupRaw um "input").getD (.str "TBD"),
            (lookupRaw um "expected_output").getD (.str "TBD"), .list vl⟩,
      ?_, ?_⟩
    · simp [procUnitTest, pySubscript, hnv, Raw.getD, hvl, exc_bind_ok]
    · unfold RenderOk
      cases hvt : truthy (Raw.list vl) with
      | false => simp [renderUnitTest, hvt, exc_bind_ok, exc_pure]
      | true => simp [renderUnitTest, hvt, pyIter_list, exc_bind_ok, exc_pure]
  | int n => simp [wsUnit] at h
  | list l => simp [wsUnit] at h
  | null => simp [wsUnit] at h

theorem renderIntegration_ok {e : Raw} (h : wsIntegration e = true) :
    RenderOk renderIntegrationTest (procIntegrationTest e) := by
  cases e with
  | str s => exact ⟨_, rfl⟩
  | map tm =>
    simp only [wsIntegration] at h
    obtain ⟨nv, hnv⟩ := hasKey_lookup h
    unfold RenderOk
    simp [renderIntegrationTest, procIntegrationTest, pySubscript, hnv,
      pyItems, exc_bind_ok, exc_pure]
  | int n => simp [wsIntegration] at h
  | list l => simp [wsIntegration] at h
  | null => simp [wsIntegration] at h

theorem renderConformance_ok {e : Raw} (h : wsConformance e = true) :
    RenderOk renderConformanceTest (procConformanceTest e) := by
  cases e with
  | str s => exact ⟨_, rfl⟩
  | map tm =>
    simp only [wsConformance, Bool.and_eq_true] at h
    obtain ⟨hs, htv⟩ := h
    obtain ⟨sv, hsv⟩ := hasKey_lookup hs
    rcases optKeyB_cases htv with ht0 | ⟨v, ht0, htp⟩
    · unfold RenderOk
      simp [renderConformanceTest, procConformanceTest, pySubscript, hsv,
        pyContains, ht0, exc_bind_ok, exc_pure]
    · cases v with
      | list vl =>
        have hvecs : ∃ vbs, mapE (fun v => do
            let i ← pySubscript v "input"
            let o ← pySubscript v "output"
            pure ["    Input: " ++ pyStr i, "    Output: " ++ pyStr o]) vl =
            .ok vbs := by
          have : ∀ x ∈ vl, ∃ b, (do
              let i ← pySubscript x "input"
              let o ← pySubscript x "output"
              pure ["    Input: " ++ pyStr i, "    Output: " ++ pyStr o] :
              Except PyErr (List String)) = .ok b ∧ True := by
            intro x hx
            rw [List.all_eq_true] at htp
            have hx2 := htp x hx
            cases x
            case map vm =>
              simp only [wsVector, Bool.and_eq_true] at hx2
              obtain ⟨hin, hout⟩ := hx2
              obtain ⟨iv, hiv⟩ := hasKey_lookup hin
              obtain ⟨ov, hov⟩ := hasKey_lookup hout
              exact ⟨["    Input: " ++ pyStr iv, "    Output: " ++ pyStr ov],
                by simp [pySubscript, hiv, hov, exc_bind_ok, exc_pure], trivial⟩
            all_goals simp [wsVector] at hx2
          obtain ⟨vbs, hvbs, -⟩ := mapE_ok_of_forall this
          exact ⟨vbs, hvbs⟩
        obtain ⟨vbs, hvbs⟩ := hvecs
        unfold RenderOk
        simp only [renderConformanceTest, procConformanceTest,
          subscript_of_hasKey hsv, subscript_of_hasKey ht0, pyContains, ht0,
          Option.isSome_some, pyIter_list, exc_bind_ok, if_true]
        rw [hvbs]
        simp [exc_bind_ok, exc_pure]
      | str a => simp at htp
      | int a => simp at htp
      | map a => simp at htp
      | null => simp at htp
  | int n => simp [wsConformance] at h
  | list l => simp [wsConformance] at h
  | null => simp [wsConformance] at h

theorem testing_ok {d : List (String × Raw)}
    (h : wsTesting (dGet d "testing" (.map [])) = true) :
    ∃ t, process_testing d = .ok t ∧ RenderOk renderTesting t := by
  cases hv : dGet d "testing" (.map [])
  case map m =>
    rw [hv] at h
    simp only [wsTesting, Bool.and_eq_true] at h
    obtain ⟨⟨hu, hi⟩, hc⟩ := h
    have hures : ∃ ul uts, (lookupRaw m "unit_tests").getD (.list []) =
        .list ul ∧ mapE procUnitTest ul = .ok uts ∧
        ∀ y ∈ uts, RenderOk renderUnitTest y := by
      rcases optKeyB_cases hu with h0 | ⟨v, h0, hp⟩
      · exact ⟨[], [], by simp [h0], rfl, by intro y hy; cases hy⟩
      · cases v with
        | list ul =>
          have : ∀ x ∈ ul, ∃ y, procUnitTest x = .ok y ∧
              RenderOk renderUnitTest y := by
            intro x hx
            exact procUnitTest_ok (by
              rw [List.all_eq_true] at hp
              exact hp x hx)
          obtain ⟨uts, huts, hfa⟩ := mapE_ok_of_forall this
          refine ⟨ul, uts, by simp [h0], huts, ?_⟩
          intro y hy
          obtain ⟨x, -, -, hprop⟩ := forall₂_mem_right hfa y hy
          exact hprop
        | str a => simp at hp
        | int a => simp at hp
        | map a => simp at hp
        | null => simp at hp
    obtain ⟨ul, uts, hul, huts, hurend⟩ := hures
    have hires : ∃ il, (lookupRaw m "integration_tests").getD (.list []) =
        .list il ∧ ∀ e ∈ il, wsIntegration e = true := by
      rcases optKeyB_cases hi with h0 | ⟨v, h0, hp⟩
      · exact ⟨[], by simp [h0], by intro e he; cases he⟩
      · cases v with
        | list il =>
          exact ⟨il, by simp [h0], by rw [List.all_eq_true] at hp; exact hp⟩
        | str a => simp at hp
        | int a => simp at hp
        | map a => simp at hp
        | null => simp at hp
    obtain ⟨il, hil, hilws⟩ := hires
    have hcres : ∃ cl2, (lookupRaw m "conformance_tests").getD (.list []) =
        .list cl2 ∧ ∀ e ∈ cl2, wsConformance e = true := by
      rcases optKeyB_cases hc with h0 | ⟨v, h0, hp⟩
      · exact ⟨[], by simp [h0], by intro e he; cases he⟩
      · cases v with
        | list cl2 =>
          exact ⟨cl2, by simp [h0], by rw [List.all_eq_true] at hp; exact hp⟩
        | str a => simp at hp
        | int a => simp at hp
        | map a => simp at hp
        | null => simp at hp
    obtain ⟨cl2, hcl2, hcl2ws⟩ := hcres
    have hutrend : ∃ ubs, mapE renderUnitTest uts = .ok ubs := by
      have : ∀ y ∈ uts, ∃ b, renderUnitTest y = .ok b ∧ True := by
        intro y hy
        obtain ⟨lines, hlines⟩ := hurend y hy
        exact ⟨lines, hlines, trivial⟩
      obtain ⟨ubs, hubs, -⟩ := mapE_ok_of_forall this
      exact ⟨ubs, hubs⟩
    obtain ⟨ubs, hubs⟩ := hutrend
    have hitrend : ∃ ibs, mapE renderIntegrationTest
        (il.map procIntegrationTest) = .ok ibs := by
      have : ∀ t ∈ il.map procIntegrationTest, ∃ b,
          renderIntegrationTest t = .ok b ∧ True := by
        intro t ht
        rw [List.mem_map] at ht
        obtain ⟨e, he, het⟩ := ht
        obtain ⟨lines, hlines⟩ := renderIntegration_ok (hilws e he)
        exact ⟨lines, het ▸ hlines, trivial⟩
      obtain ⟨ibs, hibs, -⟩ := mapE_ok_of_forall this
      exact ⟨ibs, hibs⟩
    obtain ⟨ibs, hibs⟩ := hitrend
    have hctrend : ∃ cbs, mapE renderConformanceTest
        (cl2.map procConformanceTest) = .ok cbs := by
      have : ∀ t ∈ cl2.map procConformanceTest, ∃ b,
          renderConformanceTest t = .ok b ∧ True := by
        intro t ht
        rw [List.mem_map] at ht
        obtain ⟨e, he, het⟩ := ht
        obtain ⟨lines, hlines⟩ := renderConformance_ok (hcl2ws e he)
        exact ⟨lines, het ▸ hlines, trivial⟩
      obtain ⟨cbs, hcbs, -⟩ := mapE_ok_of_forall this
      exact ⟨cbs, hcbs⟩
    obtain ⟨cbs, hcbs⟩ := hctrend
    refine ⟨⟨uts, il.map procIntegrationTest, cl2.map procConformanceTest⟩,
      ?_, ?_⟩
    · simp [process_testing, hv, Raw.getD, hul, pyIter, huts, hil, hcl2,
        exc_bind_ok]
    · unfold RenderOk
      simp only [renderTesting]
      rw [hubs, hibs, hcbs]
      simp [exc_bind_ok, exc_pure]
  all_goals (rw [hv] at h; simp [wsTesting] at h)

/-- Like `mapE_ok_of_forall`, with the result property allowed to mention the
input element. -/
theorem mapE_ok_rel {f : α → Except PyErr β} {R : α → β → Prop} :
    ∀ {l : List α}, (∀ x ∈ l, ∃ y, f x = .ok y ∧ R x y) →
    ∃ ys, mapE f l = .ok ys ∧ List.Forall₂ R l ys
  | [], _ => ⟨[], rfl, List.Forall₂.nil⟩
  | x :: xs, h => by
    obtain ⟨y, hy, hr⟩ := h x (List.mem_cons_self x xs)
    obtain ⟨ys, hys, hall⟩ := mapE_ok_rel (fun z hz => h z (List.mem_cons_of_mem x hz))
    exact ⟨y :: ys, by simp only [mapE, hy, hys, exc_bind_ok]; rfl,
      List.Forall₂.cons hr hall⟩

/-- Map a second effectful pass over the results of a `Forall₂`, carrying the
original elements through. -/
theorem mapE_ok_forall₂_comp {R : α → β → Prop} {S : α → γ → Prop}
    {g : β → Except PyErr γ}
    (hg : ∀ x y, R x y → ∃ b, g y = .ok b ∧ S x b) :
    ∀ {l : List α} {ys : List β}, List.Forall₂ R l ys →
    ∃ bs, mapE g ys = .ok bs ∧ List.Forall₂ S l bs := by
  intro l ys h
  induction h with
  | nil => exact ⟨[], rfl, List.Forall₂.nil⟩
  | cons hr _ ih =>
    obtain ⟨b, hb, hs⟩ := hg _ _ hr
    obtain ⟨bs, hbs, hall⟩ := ih
    exact ⟨b :: bs, by simp only [mapE, hb, hbs, exc_bind_ok]; rfl,
      List.Forall₂.cons hs hall⟩

theorem forall₂_map_eq {R : α → β → Prop} {f : α → γ} {g : β → γ}
    (hR : ∀ x y, R x y → g y = f x) :
    ∀ {l : List α} {ys : List β}, List.Forall₂ R l ys →
    ys.map g = l.map f := by
  intro l ys h
  induction h with
  | nil => rfl
  | cons hr _ ih => simp only [List.map_cons, hR _ _ hr, ih]

theorem flatten_map_eq_flatMap (f : α → List β) :
    ∀ l : List α, (l.map f).flatten = l.flatMap f
  | [] => rfl
  | x :: xs => by
    simp only [List.map_cons, List.flatten_cons, List.flatMap_cons,
      flatten_map_eq_flatMap f xs]

theorem steps_mapE : ∀ {sl : List (String × Raw)},
    sl.all (fun q => isListB q.2) = true →
    mapE (fun p => do
      let actions ← pyIter p.2
      pure (("  " ++ p.1 ++ ":") ::
        actions.map (fun a => "    - " ++ pyStr a))) sl =
    .ok (sl.map (fun q => ("  " ++ q.1 ++ ":") ::
      (match q.2 with
       | .list acts => acts.map (fun a => "    - " ++ pyStr a)
       | _ => [])))
  | [], _ => rfl
  | q :: sl, h => by
    simp only [List.all_cons, Bool.and_eq_true] at h
    obtain ⟨hq, hrest⟩ := h
    cases hq2 : q.2 with
    | list acts =>
      simp only [mapE, hq2, pyIter_list, exc_bind_ok, steps_mapE hrest,
        List.map_cons, hq2]
      rfl
    | str a => rw [hq2] at hq; simp [isListB] at hq
    | int a => rw [hq2] at hq; simp [isListB] at hq
    | map a => rw [hq2] at hq; simp [isListB] at hq
    | null => rw [hq2] at hq; simp [isListB] at hq

/-- The `Steps:` block of an algorithm renders its steps in dict order with
each step's actions in list order. -/
theorem renderSteps_ok {sl : List (String × Raw)}
    (h : sl.all (fun q => isListB q.2) = true) :
    renderSteps (.map sl) = .ok ("Steps:" :: stepLinesOf sl) := by
  simp only [renderSteps, pyItems, exc_bind_ok]
  rw [steps_mapE h]
  simp only [exc_bind_ok, exc_pure, stepLinesOf, flatten_map_eq_flatMap]

theorem renderCondBlock_list (l : List Raw) (hdr : String) :
    ∃ b, renderCondBlock (.list l) hdr = .ok b := by
  cases ht : truthy (Raw.list l) with
  | false => exact ⟨[], by simp [renderCondBlock, ht, exc_pure]⟩
  | true =>
    exact ⟨hdr :: l.map (fun i => "  - " ++ pyStr i),
      by simp [renderCondBlock, ht, pyIter_list, exc_bind_ok, exc_pure]⟩

theorem procAlgorithm_full {n : String} {a : Raw} (h : wsAlgo a = true) :
    ∃ alg mid tail, procAlgorithm n a = .ok alg ∧
      renderAlgorithm (n, alg) = .ok (("Algorithm: " ++ n) :: mid ++
        ("Steps:" :: stepLinesOf (stepsOf a)) ++ tail) := by
  cases a
  case map m =>
    simp only [wsAlgo, Bool.and_eq_true] at h
    obtain ⟨⟨⟨⟨⟨hir, hst⟩, hec⟩, hpre⟩, hpost⟩, hinv⟩ := h
    have hirres : ∃ irm, (lookupRaw m "implementation_requirements").getD
        (.map []) = .map irm ∧ optListB irm "memory_operations" = true ∧
        optListB irm "encoding_requirements" = true ∧
        optListB irm "leftover_handling" = true ∧
        optKeyB irm "padding_rules" (fun v =>
          match v with
          | .map pr => optListB pr "one_byte" && optListB pr "two_bytes"
          | _ => false) = true := by
      rcases optKeyB_cases hir with h0 | ⟨v, h0, hp⟩
      · exact ⟨[], by simp [h0], rfl, rfl, rfl, rfl⟩
      · cases v with
        | map irm =>
          simp only [wsImplReq, Bool.and_eq_true] at hp
          exact ⟨irm, by simp [h0], hp.1.1.1, hp.1.1.2, hp.1.2, hp.2⟩
        | str a => simp [wsImplReq] at hp
        | int a => simp [wsImplReq] at hp
        | list a => simp [wsImplReq] at hp
        | null => simp [wsImplReq] at hp
    obtain ⟨irm, hirm, hmo, henc, hleft, hpad⟩ := hirres
    obtain ⟨mo, hmol⟩ := optList_getD hmo
    obtain ⟨enc, hencl⟩ := optList_getD henc
    obtain ⟨left, hleftl⟩ := optList_getD hleft
    have hpadres : ∃ prm, (lookupRaw irm "padding_rules").getD (.map []) =
        .map prm ∧ optListB prm "one_byte" = true ∧
        optListB prm "two_bytes" = true := by
      rcases optKeyB_cases hpad with h0 | ⟨v, h0, hp⟩
      · exact ⟨[], by simp [h0], rfl, rfl⟩
      · cases v with
        | map prm =>
          simp only [Bool.and_eq_true] at hp
          exact ⟨prm, by simp [h0], hp.1, hp.2⟩
        | str a => simp at hp
        | int a => simp at hp
        | list a => simp at hp
        | null => simp at hp
    obtain ⟨prm, hprm, hob, htb⟩ := hpadres
    obtain ⟨ob, hobl⟩ := optList_getD hob
    obtain ⟨tb, htbl⟩ := optList_getD htb
    have hstres : ∃ sl, (lookupRaw m "steps").getD (.map []) = .map sl ∧
        sl.all (fun q => isListB q.2) = true ∧ stepsOf (.map m) = sl := by
      rcases optKeyB_cases hst with h0 | ⟨v, h0, hp⟩
      · exact ⟨[], by simp [h0], rfl, by simp [stepsOf, h0]⟩
      · cases v with
        | map sl => exact ⟨sl, by simp [h0], hp, by simp [stepsOf, h0]⟩
        | str a => simp at hp
        | int a => simp at hp
        | list a => simp at hp
        | null => simp at hp
    obtain ⟨sl, hsl, hslall, hstepsOf⟩ := hstres
    obtain ⟨ec, hecl⟩ := optList_getD hec
    obtain ⟨pre, hprel⟩ := optList_getD hpre
    obtain ⟨post, hpostl⟩ := optList_getD hpost
    obtain ⟨inv, hinvl⟩ := optList_getD hinv
    obtain ⟨eb, heb⟩ := renderCondBlock_list ec "Edge Cases:"
    obtain ⟨preb, hpreb⟩ := renderCondBlock_list pre "Preconditions:"
    obtain ⟨postb, hpostb⟩ := renderCondBlock_list post "Postconditions:"
    obtain ⟨invb, hinvb⟩ := renderCondBlock_list inv "Invariants:"
    refine ⟨⟨n, (lookupRaw m "description").getD (.str ""),
            ⟨.list mo, .list enc, .list left, ⟨.list ob, .list tb⟩⟩,
            .map sl, (lookupRaw m "complexity").getD (.map []),
            .list ec, .list pre, .list post, .list inv,
            (lookupRaw m "examples").getD (.list [])⟩,
      ["Description: " ++ pyStr ((lookupRaw m "description").getD (.str "")),
       "Implementation Requirements:", "  Memory Operations:"]
        ++ mo.map (fun o => "    - " ++ pyStr o)
        ++ ["  Encoding Requirements:"]
        ++ enc.map (fun r => "    - " ++ pyStr r)
        ++ ["  Leftover Handling:"]
        ++ left.map (fun hd => "    - " ++ pyStr hd)
        ++ ["  Padding Rules:", "    One Byte:"]
        ++ ob.map (fun r => "      - " ++ pyStr r)
        ++ ["    Two Bytes:"]
        ++ tb.map (fun r => "      - " ++ pyStr r),
      eb ++ preb ++ postb ++ invb ++ [""], ?_, ?_⟩
    · simp [procAlgorithm, Raw.getD, hirm, hprm, hmol, hencl, hleftl, hobl,
        htbl, hsl, hecl, hprel, hpostl, hinvl, exc_bind_ok]
    · rw [hstepsOf]
      simp only [renderAlgorithm, pyIter_list, exc_bind_ok]
      rw [renderSteps_ok hslall, heb, hpreb, hpostb, hinvb]
      simp [exc_bind_ok, exc_pure, List.append_assoc]
  all_goals simp [wsAlgo] at h

theorem algorithms_full {d : List (String × Raw)} {am : List (String × Raw)}
    (hv : dGet d "algorithms" (.map []) = .map am)
    (h : wsAlgorithms (.map am) = true) :
    ∃ algs blocks, process_algorithms d = .ok algs ∧
      algs.map Prod.fst = am.map Prod.fst ∧
      mapE renderAlgorithm algs = .ok blocks ∧
      List.Forall₂ (fun (p : String × Raw) (b : List String) =>
        ∃ mid tail, b = ("Algorithm: " ++ p.1) :: mid ++
          ("Steps:" :: stepLinesOf (stepsOf p.2)) ++ tail) am blocks ∧
      renderAlgorithms algs = .ok ("=== ALGORITHMS ===" :: blocks.flatten) := by
  simp only [wsAlgorithms, List.all_eq_true] at h
  have hall : ∀ p ∈ am, ∃ y,
      (match procAlgorithm p.1 p.2 with
       | .ok a => .ok (p.1, a)
       | .error e => .error e : Except PyErr (String × Algorithm)) = .ok y ∧
      (y.1 = p.1 ∧ ∃ mid tail, renderAlgorithm y =
        .ok (("Algorithm: " ++ p.1) :: mid ++
          ("Steps:" :: stepLinesOf (stepsOf p.2)) ++ tail)) := by
    intro p hp
    obtain ⟨alg, mid, tail, halg, hrend⟩ := procAlgorithm_full (n := p.1) (h p hp)
    exact ⟨(p.1, alg), by simp [halg], rfl, mid, tail, hrend⟩
  obtain ⟨algs, halgs, hfa⟩ := mapE_ok_rel hall
  have hnames : algs.map Prod.fst = am.map Prod.fst :=
    forall₂_map_eq (fun x y hr => hr.1) hfa
  have hblocks : ∃ blocks, mapE renderAlgorithm algs = .ok blocks ∧
      List.Forall₂ (fun (p : String × Raw) (b : List String) =>
        ∃ mid tail, b = ("Algorithm: " ++ p.1) :: mid ++
          ("Steps:" :: stepLinesOf (stepsOf p.2)) ++ tail) am blocks := by
    refine mapE_ok_forall₂_comp ?_ hfa
    intro x y hr
    obtain ⟨-, mid, tail, hrend⟩ := hr
    exact ⟨_, hrend, mid, tail, rfl⟩
  obtain ⟨blocks, hblocksE, hbfa⟩ := hblocks
  refine ⟨algs, blocks, ?_, hnames, hblocksE, hbfa, ?_⟩
  · simp [process_algorithms, hv, pyItems, halgs, exc_bind_ok]
  · simp only [renderAlgorithms]
    rw [hblocksE]
    simp [exc_bind_ok, exc_pure]

/-- On a well-shaped document (metadata keys aside), every processor succeeds
and every non-metadata renderer piece succeeds on its output. -/
theorem pipeline_sections_ok {d : List (String × Raw)} (h : ws d = true) :
    ∃ spec, normalize d = .ok spec ∧
      spec.metadata = process_metadata d ∧
      process_algorithms d = .ok spec.algorithms ∧
      RenderOk renderHeaderFormat spec.header_format ∧
      RenderOk renderRegisterUsage spec.register_usage ∧
      RenderOk renderStructures spec.structures ∧
      RenderOk renderAlgorithms spec.algorithms ∧
      RenderOk renderErrorHandling spec.error_handling ∧
      RenderOk renderSectionRequirements spec.section_requirements ∧
      RenderOk renderPerformance spec.performance ∧
      RenderOk renderTesting spec.testing ∧
      RenderOk renderCodeStyle spec.code_style := by
  simp only [ws, Bool.and_eq_true] at h
  obtain ⟨⟨⟨⟨⟨⟨⟨⟨⟨-, hB⟩, hC⟩, hD⟩, hE⟩, hF⟩, hG⟩, hH2⟩, hI⟩, hJ⟩ := h
  obtain ⟨tH, hHp, hHr⟩ := header_ok hB
  obtain ⟨tR, hRp, hRr⟩ := registers_ok hC
  obtain ⟨tS, hSp, hSr⟩ := structures_ok hD
  obtain ⟨tE, hEp, hEr⟩ := error_handling_ok hF
  obtain ⟨tSec, hSecp, hSecr⟩ := sections_ok hG
  obtain ⟨tP, hPp, hPr⟩ := performance_ok hH2
  obtain ⟨tT, hTp, hTr⟩ := testing_ok hI
  obtain ⟨tC, hCp, hCr⟩ := code_style_ok hJ
  cases hAv : dGet d "algorithms" (.map [])
  case map am =>
    rw [hAv] at hE
    obtain ⟨algs, blocks, hAp, -, -, -, hArend⟩ := algorithms_full hAv hE
    refine ⟨⟨process_metadata d, tH, tR, tS, algs, tE, tSec, tP, tT, tC⟩,
      ?_, rfl, hAp, hHr, hRr, hSr, ⟨_, hArend⟩, hEr, hSecr, hPr, hTr, hCr⟩
    simp [normalize, hHp, hRp, hSp, hAp, hEp, hSecp, hPp, hTp, hCp,
      exc_bind_ok]
  all_goals (rw [hAv] at hE; simp [wsAlgorithms] at hE)

/-- The full `lines` list of `format_text`, given the per-section line
lists. -/
theorem formatLines_eq {spec : Specification}
    {mL hL rL stL aL eL secL pL tL cL : List String}
    (h0 : renderMetadata spec.metadata = .ok mL)
    (h1 : renderHeaderFormat spec.header_format = .ok hL)
    (h2 : renderRegisterUsage spec.register_usage = .ok rL)
    (h3 : renderStructures spec.structures = .ok stL)
    (h4 : renderAlgorithms spec.algorithms = .ok aL)
    (h5 : renderErrorHandling spec.error_handling = .ok eL)
    (h6 : renderSectionRequirements spec.section_requirements = .ok secL)
    (h7 : renderPerformance spec.performance = .ok pL)
    (h8 : renderTesting spec.testing = .ok tL)
    (h9 : renderCodeStyle spec.code_style = .ok cL) :
    formatLines spec = .ok (mL ++ hL ++ rL ++ stL ++ aL ++ eL ++ secL ++ pL
      ++ tL ++ cL) := by
  simp [formatLines, h0, h1, h2, h3, h4, h5, h6, h7, h8, h9, exc_bind_ok,
    exc_pure]

theorem process_spec_ok_of {d : List (String × Raw)} {spec : Specification}
    {out : String} (hn : normalize d = .ok spec)
    (hf : format_text spec = .ok out) : process_spec d = .ok out := by
  simp [process_spec, create_specification, hn, hf]

theorem process_spec_err_of {d : List (String × Raw)} {spec : Specification}
    {e : PyErr} (hn : normalize d = .ok spec)
    (hf : format_text spec = .error e) :
    process_spec d = .error (.specForgeError
      ("Failed to process specification: " ++ pyErrStr e)) := by
  simp [process_spec, create_specification, hn, hf]

/-- C1 amended: on a well-shaped document, when one of the three metadata keys
is missing the forge operation fails with an error naming the first missing
field (a generic `SpecForgeError` produced by wrapping the renderer's
`KeyError`, not the dedicated `ValidationError` class); when all three are
present — whatever their values — the operation succeeds.  Well-shaped means:
each present section has the expected mapping/list shapes and every present
item supplies the fields the pipeline reads by direct subscript (`ws`). -/
theorem mandatory_fields_amended :
    (∀ (d : List (String × Raw)) (k : String), ws d = true →
      firstMissingMeta (process_metadata d) = some k →
      process_spec d = .error (.specForgeError
        ("Failed to process specification: " ++ pyq k))) ∧
    (∀ d : List (String × Raw), ws d = true →
      metaComplete (process_metadata d) = true →
      ∃ out, process_spec d = .ok out) := by
  constructor
  · intro d k hws hk
    obtain ⟨spec, hnorm, hmeta, -, -, -, -, -, -, -, -, -, -⟩ :=
      pipeline_sections_ok hws
    have hmerr : renderMetadata spec.metadata = .error (.keyError k) := by
      rw [hmeta]
      exact renderMetadata_err hk
    have hfmt : format_text spec = .error (.keyError k) := by
      simp [format_text, formatLines, hmerr, exc_bind_err]
    have hps := process_spec_err_of hnorm hfmt
    simpa [pyErrStr] using hps
  · intro d hws hmc
    obtain ⟨spec, hnorm, hmeta, -, ⟨hL, hH⟩, ⟨rL, hR⟩, ⟨stL, hS⟩, ⟨aL, hA⟩,
      ⟨eL, hE⟩, ⟨secL, hSec⟩, ⟨pL, hP⟩, ⟨tL, hT⟩, ⟨cL, hC⟩⟩ :=
      pipeline_sections_ok hws
    rw [← hmeta] at hmc
    obtain ⟨mL, hmL⟩ := renderMetadata_ok hmc
    have hfl := formatLines_eq hmL hH hR hS hA hE hSec hP hT hC
    have hft : format_text spec = .ok (String.intercalate "\n"
        (mL ++ hL ++ rL ++ stL ++ aL ++ eL ++ secL ++ pL ++ tL ++ cL)) := by
      simp [format_text, hfl, exc_bind_ok, exc_pure]
    exact ⟨_, process_spec_ok_of hnorm hft⟩

theorem mandatory_fields_amended_witness :
    process_spec ([] : List (String × Raw)) = .error (.specForgeError
      ("Failed to process specification: " ++ pyq "name")) ∧
    ∃ out, process_spec metadataOnlyDoc = .ok out :=
  ⟨mandatory_fields_amended.1 [] "name" (by decide) (by decide),
   mandatory_fields_amended.2 metadataOnlyDoc (by decide) (by decide)⟩

/-- C2 amended: on well-shaped documents normalization always succeeds, and
each absent section yields its default-valued entity; but a present item
missing a required non-metadata field (register `name`/`purpose`, field
`name`/`type`, bss `name`/`size`/`align`/`purpose`, benchmark
`name`/`input_size`, dict unit-test or error-type `name`) makes normalization
itself fail with a missing-field validation error (see the counterexample),
and a missing metadata field never makes normalization fail. -/
theorem totality_amended :
    (∀ d : List (String × Raw), ws d = true →
      ∃ spec, normalize d = .ok spec) ∧
    (∀ d : List (String × Raw), lookupRaw d "header_format" = none →
      process_header_format d =
        .ok ⟨.str "", .str "", .str "", .str "", .list [], .list []⟩) ∧
    (∀ d : List (String × Raw), lookupRaw d "register_usage" = none →
      process_register_usage d = .ok ⟨[]⟩) ∧
    (∀ d : List (String × Raw), lookupRaw d "structures" = none →
      process_data_structures d = .ok []) ∧
    (∀ d : List (String × Raw), lookupRaw d "algorithms" = none →
      process_algorithms d = .ok []) ∧
    (∀ d : List (String × Raw), lookupRaw d "error_handling" = none →
      process_error_handling d = .ok ⟨.map [], [], .list []⟩) ∧
    (∀ d : List (String × Raw), lookupRaw d "section_requirements" = none →
      process_section_requirements d = .ok ⟨.list [], [], .map []⟩) ∧
    (∀ d : List (String × Raw), lookupRaw d "performance" = none →
      process_performance d =
        .ok ⟨.str "", .str "", .list [], .list [], .list [], []⟩) ∧
    (∀ d : List (String × Raw), lookupRaw d "testing" = none →
      process_testing d = .ok ⟨[], [], []⟩) ∧
    (∀ d : List (String × Raw), lookupRaw d "code_style" = none →
      process_code_style d = .ok ⟨.list [], .list [], .list [], .list []⟩) ∧
    (∀ d : List (String × Raw), process_metadata d =
      dGet d "metadata" (.map [])) := by
  refine ⟨fun d h => ?_, fun d h => ?_, fun d h => ?_, fun d h => ?_,
    fun d h => ?_, fun d h => ?_, fun d h => ?_, fun d h => ?_,
    fun d h => ?_, fun d h => ?_, fun d => rfl⟩
  · obtain ⟨spec, hn, -⟩ := pipeline_sections_ok h
    exact ⟨spec, hn⟩
  · simp [process_header_format, dGet, h, Raw.getD, lookupRaw, exc_bind_ok]
  · simp [process_register_usage, dGet, h, Raw.getD, lookupRaw, pyIter,
      mapE, exc_bind_ok]
  · simp [process_data_structures, dGet, h, pyItems, mapE, exc_bind_ok]
  · simp [process_algorithms, dGet, h, pyItems, mapE, exc_bind_ok]
  · simp [process_error_handling, dGet, h, Raw.getD, lookupRaw, pyIter,
      mapE, procStrategies, exc_bind_ok]
  · simp [process_section_requirements, dGet, h, Raw.getD, lookupRaw, pyIter,
      mapE, exc_bind_ok]
  · simp [process_performance, dGet, h, Raw.getD, lookupRaw, pyIter, mapE,
      exc_bind_ok]
  · simp [process_testing, dGet, h, Raw.getD, lookupRaw, pyIter, mapE,
      exc_bind_ok]
  · simp [process_code_style, dGet, h, Raw.getD, lookupRaw, exc_bind_ok]

theorem totality_amended_witness :
    (∃ spec, normalize nullDefaultsDoc = .ok spec) ∧
    process_register_usage ([] : List (String × Raw)) = .ok ⟨[]⟩ :=
  ⟨totality_amended.1 nullDefaultsDoc (by decide),
   totality_amended.2.2.1 [] rfl⟩

/-- C8: on a well-shaped document with complete metadata, the rendered report
lists the algorithms of the raw `algorithms` mapping in the same order — the
algorithms section of the line list is the in-order concatenation of one
block per raw algorithm, each headed by `Algorithm: <name>` — and within each
algorithm the `Steps:` block flattens the raw steps mapping in order with each
step's actions in original list order. -/
theorem order_preservation :
    ∀ (d am : List (String × Raw)), ws d = true →
      metaComplete (process_metadata d) = true →
      dGet d "algorithms" (.map []) = .map am →
      ∃ spec blocks pre post lines,
        normalize d = .ok spec ∧
        spec.algorithms.map Prod.fst = am.map Prod.fst ∧
        formatLines spec = .ok lines ∧
        lines = pre ++ ("=== ALGORITHMS ===" :: blocks.flatten) ++ post ∧
        List.Forall₂ (fun (p : String × Raw) (b : List String) =>
          ∃ mid tail, b = ("Algorithm: " ++ p.1) :: mid ++
            ("Steps:" :: stepLinesOf (stepsOf p.2)) ++ tail) am blocks ∧
        process_spec d = .ok (String.intercalate "\n" lines) := by
  intro d am hws hmc hv
  have hwsA : wsAlgorithms (.map am) = true := by
    have h := hws
    simp only [ws, Bool.and_eq_true] at h
    obtain ⟨⟨⟨⟨⟨⟨⟨⟨⟨-, -⟩, -⟩, -⟩, hE⟩, -⟩, -⟩, -⟩, -⟩, -⟩ := h
    rw [hv] at hE
    exact hE
  obtain ⟨spec, hnorm, hmeta, halgeq, ⟨hL, hH⟩, ⟨rL, hR⟩, ⟨stL, hS⟩, -,
    ⟨eL, hE⟩, ⟨secL, hSec⟩, ⟨pL, hP⟩, ⟨tL, hT⟩, ⟨cL, hC⟩⟩ :=
    pipeline_sections_ok hws
  obtain ⟨algs, blocks, hAp, hnames, -, hbfa, hArend⟩ := algorithms_full hv hwsA
  have heq : spec.algorithms = algs := by
    have h2 := halgeq.symm.trans hAp
    simpa using h2
  rw [← hmeta] at hmc
  obtain ⟨mL, hmL⟩ := renderMetadata_ok hmc
  have hA2 : renderAlgorithms spec.algorithms =
      .ok ("=== ALGORITHMS ===" :: blocks.flatten) := by
    rw [heq]; exact hArend
  have hfl := formatLines_eq hmL hH hR hS hA2 hE hSec hP hT hC
  have hft : format_text spec = .ok (String.intercalate "\n"
      (mL ++ hL ++ rL ++ stL ++ ("=== ALGORITHMS ===" :: blocks.flatten)
        ++ eL ++ secL ++ pL ++ tL ++ cL)) := by
    simp [format_text, hfl, exc_bind_ok, exc_pure]
  refine ⟨spec, blocks, mL ++ hL ++ rL ++ stL,
    eL ++ secL ++ pL ++ tL ++ cL, _, hnorm, by rw [heq]; exact hnames,
    hfl, ?_, hbfa, process_spec_ok_of hnorm hft⟩
  simp [List.append_assoc]

theorem order_preservation_witness :
    ∃ spec blocks pre post lines,
      normalize orderDoc = .ok spec ∧
      spec.algorithms.map Prod.fst = orderAlgos.map Prod.fst ∧
      formatLines spec = .ok lines ∧
      lines = pre ++ ("=== ALGORITHMS ===" :: blocks.flatten) ++ post ∧
      List.Forall₂ (fun (p : String × Raw) (b : List String) =>
        ∃ mid tail, b = ("Algorithm: " ++ p.1) :: mid ++
          ("Steps:" :: stepLinesOf (stepsOf p.2)) ++ tail) orderAlgos blocks ∧
      process_spec orderDoc = .ok (String.intercalate "\n" lines) :=
  order_preservation orderDoc orderAlgos (by decide) (by decide) rfl

end SpecForge
